import Mathlib

/-!
Go-drone: identifier sanitising and the Jenkins XML converter

A shallow embedding of

* `convert/jenkinsjson/json/util.go` (`SanitizeForId`, `SanitizeForName`),
* `convert/jenkinsxml/convert.go` (`Converter.convert` and its step builders),
* `convert/jenkinsjson/json/jacoco.go` (the JaCoCo mapping rules),
* `convert/circle/internal/orbs/orbs.go` (`Convert`),
* the behaviour of `InheritKeys` exercised by `convert/gitlab/yaml/inherit_test.go`,

together with the properties proved about them.

A Go `string` is an immutable sequence of bytes; it is embedded as a list of
byte values (`Nat`, each below 256 for a real string).  `len`, slicing and the
`regexp` replacements below all work on that byte sequence.  None of the
definitions depends on the bound 256, so every theorem holds in particular for
all real byte strings.
-/

namespace GoDrone

/-- A Go string: its sequence of bytes. -/
abbrev GoString := List Nat

/-- The bytes of an ASCII literal. -/
def ascii (s : String) : GoString := s.toList.map Char.toNat

/-! ## `convert/jenkinsjson/json/util.go` -/

/-- The byte is an ASCII letter. -/
def isLetter (b : Nat) : Bool := (97 ≤ b && b ≤ 122) || (65 ≤ b && b ≤ 90)

/-- The byte is an ASCII digit. -/
def isDigit (b : Nat) : Bool := 48 ≤ b && b ≤ 57

/-- The character class `[a-zA-Z0-9_]` (also RE2's ASCII-only `\w`). -/
def isWordByte (b : Nat) : Bool := isLetter b || isDigit b || b == 95

/-- The complement of the class `[^\w\- ]` used by `SanitizeForName`: word
bytes, hyphen (45) and space (32). -/
def isNameByte (b : Nat) : Bool := isWordByte b || b == 45 || b == 32

/-- The class `[_ \-]` of separators. -/
def isSeparator (b : Nat) : Bool := b == 95 || b == 32 || b == 45

/-- The cutset `"_ "` of `strings.TrimLeft` / `strings.TrimRight`. -/
def isTrimByte (b : Nat) : Bool := b == 95 || b == 32

/-- Scanner behind `regexp.MustCompile("[^C]+").ReplaceAllString(s, "_")` for a
class `C` of ASCII bytes: every maximal run of bytes outside `C` becomes one
underscore.  (Every byte of a multi-byte or invalid UTF-8 sequence is at least
128, so rune runs outside `C` and byte runs outside `C` coincide.)  The flag
says whether the previous byte already belonged to a replaced run. -/
def replaceInvalidRunsAux (keep : Nat → Bool) : Bool → GoString → GoString
  | _, [] => []
  | inRun, b :: rest =>
    if keep b then b :: replaceInvalidRunsAux keep false rest
    else if inRun then replaceInvalidRunsAux keep true rest
    else 95 :: replaceInvalidRunsAux keep true rest

/-- Replace each maximal run of bytes outside the class `keep` by `"_"`. -/
def replaceInvalidRuns (keep : Nat → Bool) (s : GoString) : GoString :=
  replaceInvalidRunsAux keep false s

/-- The replacement `regexp.MustCompile("^_+|_+$").ReplaceAllString(s, "")`:
the leading and the trailing run of underscores are removed. -/
def trimUnderscores (s : GoString) : GoString :=
  List.rdropWhile (fun b => b == 95) (List.dropWhile (fun b => b == 95) s)

/-- The placeholder literal `"unamed"` of `SanitizeForId`. -/
def unamed : GoString := ascii "unamed"

/-- The value of the local `sanitized` of `SanitizeForId` just before the
suffix is appended (lines 26-38 of `util.go`). -/
def sanitizedIdName (spanName : GoString) : GoString :=
  let sanitized := replaceInvalidRuns isWordByte spanName
  let sanitized := trimUnderscores sanitized
  let sanitized := if sanitized = [] then unamed else sanitized
  let sanitized := if sanitized.length > 58 then sanitized.take 58 else sanitized
  sanitized

/-- The function `SanitizeForId(spanName, spanId)`.  The slice expression `spanId[:6]`
panics when `len(spanId) < 6`; that run-time panic is the result `none`. -/
def SanitizeForId (spanName spanId : GoString) : Option GoString :=
  let sanitized := sanitizedIdName spanName
  if spanId.length < 6 then none else some (sanitized ++ spanId.take 6)

/-- The replacement `regexp.MustCompile("([_ \-]){2,}").ReplaceAllString(s, "$1")`:
a maximal run of two or more separators is replaced by the text of the last
iteration of the group, that is by the last byte of the run. -/
def collapseSeparators : GoString → GoString
  | [] => []
  | [b] => [b]
  | b :: c :: rest =>
    if isSeparator b && isSeparator c then collapseSeparators (c :: rest)
    else b :: collapseSeparators (c :: rest)

/-- The call `strings.TrimLeft(s, "_ ")`. -/
def trimLeft (s : GoString) : GoString := List.dropWhile isTrimByte s

/-- The call `strings.TrimRight(s, "_ ")`. -/
def trimRight (s : GoString) : GoString := List.rdropWhile isTrimByte s

/-- The function `SanitizeForName(spanName)`.  The constant
`harness.DefaultName` is declared in package `convert/harness` and is a
parameter here. -/
def SanitizeForName (DefaultName : GoString) (spanName : GoString) : GoString :=
  let sanitized := replaceInvalidRuns isNameByte spanName
  let sanitized := collapseSeparators sanitized
  let sanitized := trimLeft sanitized
  let sanitized := trimRight sanitized
  let sanitized := if sanitized = [] then DefaultName else sanitized
  let sanitized := if sanitized.length > 128 then sanitized.take 128 else sanitized
  sanitized

/-! ## `convert/jenkinsxml/xml/tasks.go` -/

/-- The struct `HudsonShellTask`. -/
structure HudsonShellTask where
  Command : GoString := []
  ConfiguredLocalRules : GoString := []
deriving DecidableEq

/-- The struct `HudsonAntTask`. -/
structure HudsonAntTask where
  Plugin : GoString := []
  Targets : GoString := []
deriving DecidableEq

/-- The struct `HudsonBatchTask`. -/
structure HudsonBatchTask where
  Command : GoString := []
  ConfiguredLocalRules : GoString := []
deriving DecidableEq

/-- The struct `HudsonTimeoutTask`. -/
structure HudsonTimeoutTask where
  TimeoutMinutes : GoString := []
deriving DecidableEq

/-- The struct `HudsonMavenTask` (its commented-out fields are absent). -/
structure HudsonMavenTask where
  Targets : GoString := []
  Name : GoString := []
  UsePrivateRepository : Bool := false
  Settings : GoString := []
  GlobalSettings : GoString := []
  InjectBuildVariables : Bool := false
deriving DecidableEq

/-- The struct `HudsonGradleTask`. -/
structure HudsonGradleTask where
  Switches : GoString := []
  RootBuildScriptDir : GoString := []
  WrapperLocation : GoString := []
  SystemProperties : GoString := []
  ProjectProperties : GoString := []
  Tasks : GoString := []
  GradleName : GoString := []
  UseWrapper : Bool := false
  MakeExecutable : Bool := false
  UseWorkspaceAsHome : Bool := false
  PassAllAsSystemProperties : Bool := false
  PassAllAsProjectProperties : Bool := false
deriving DecidableEq

/-- The `xml.Name` of an element (`encoding/xml`). -/
structure XMLName where
  Space : GoString := []
  Local : GoString := []
deriving DecidableEq

/-- Modelled from the spec: the `DialectNode` a step builder receives, "a
read-only attribute bag plus a construct-kind tag".  `jenkinsxml.Task` is
declared in package `convert/jenkinsxml/xml` outside `tasks.go`; these are the
two fields `convert.go` reads: the element name and the raw inner XML. -/
structure Task where
  XMLName : XMLName := {}
  Content : GoString := []
deriving DecidableEq

/-- Modelled from the spec: the `<builders>` element of a project, of which
`convert.go` reads the field `Tasks` only (declared outside `tasks.go`). -/
structure Builders where
  Tasks : List Task := []
deriving DecidableEq

/-- Modelled from the spec: the parsed Jenkins project (the dialect tree), of
which `convert.go` reads the field `Builders` only (declared outside
`tasks.go`). -/
structure Project where
  Builders : Builders := {}
deriving DecidableEq

/-! ## `convert/jenkinsxml/convert.go` -/

/-- The conversion context `context`. -/
structure Context where
  config : Project := {}
deriving DecidableEq

/-- The struct `harness.StepExec`, with the one field the converter assigns. -/
structure StepExec where
  Run : GoString := []
deriving DecidableEq

/-- The struct `harness.StepPlugin`, with the fields the converter assigns; the map
`Inputs` is the list of its entries. -/
structure StepPlugin where
  Image : GoString := []
  Inputs : List (GoString × GoString) := []
deriving DecidableEq

/-- The struct `Spec` of `convert.go`. -/
structure Spec where
  Paths : List GoString := []
deriving DecidableEq

/-- The struct `Report` of `convert.go`; the pointer `Spec` may be nil. -/
structure Report where
  Type_ : GoString := []
  Spec : Option Spec := none
deriving DecidableEq

/-- The struct `Buildspec` of `convert.go`. -/
structure Buildspec where
  Language : GoString := []
  BuildTool : GoString := []
  Args : GoString := []
  RunOnlySelectedTests : Bool := false
  PreCommand : GoString := []
  PostCommand : GoString := []
  Reports : List Report := []
  EnableTestSplitting : Bool := false
deriving DecidableEq

/-- The dynamic values stored in the `Spec interface{}` field of a step. -/
inductive StepSpec where
  | exec (spec : StepExec)
  | plugin (spec : StepPlugin)
  | buildspec (spec : Buildspec)
deriving DecidableEq

/-- The struct `harness.Step`, with the fields the converters mention; a field left out
of a composite literal has its zero value. -/
structure Step where
  Id : GoString := []
  Name : GoString := []
  Type_ : GoString := []
  Timeout : GoString := []
  Spec : Option StepSpec := none
deriving DecidableEq

/-- The struct `harness.StageCI`; an element of `Steps` is a `*harness.Step` and may be nil. -/
structure StageCI where
  Steps : List (Option Step) := []
deriving DecidableEq

/-- The struct `harness.Stage`, whose `Spec` here always holds a `*harness.StageCI`. -/
structure Stage where
  Type_ : GoString := []
  Name : GoString := []
  Spec : StageCI := {}
deriving DecidableEq

/-- The struct `harness.Pipeline`. -/
structure Pipeline where
  Stages : List Stage := []
deriving DecidableEq

/-- The struct `harness.Config`. -/
structure Config where
  Version : Int := 0
  Kind : GoString := []
  Spec : Pipeline := {}
deriving DecidableEq

/-- The library functions called by `convert.go`: `strings.TrimSpace`,
`xml.Unmarshal` at each of the six destination types (`none` is a non-nil
error) and `yaml.Marshal` (`Except.error` is a non-nil error). -/
structure Lib where
  TrimSpace : GoString → GoString
  unmarshalShell : GoString → Option HudsonShellTask
  unmarshalAnt : GoString → Option HudsonAntTask
  unmarshalBatch : GoString → Option HudsonBatchTask
  unmarshalGradle : GoString → Option HudsonGradleTask
  unmarshalMaven : GoString → Option HudsonMavenTask
  unmarshalTimeout : GoString → Option HudsonTimeoutTask
  yamlMarshal : Config → Except GoString GoString

/-- The builder `convertMavenTaskToStep`; the result `none` is the nil pointer. -/
def convertMavenTaskToStep (lib : Lib) (task : Task) : Option Step :=
  match lib.unmarshalMaven (ascii "<builders>" ++ task.Content ++ ascii "</builders>") with
  | none => none
  | some mavenTask =>
    let spec : StepPlugin :=
      { Image := ascii "harnesscommunitytest/maven-plugin",
        Inputs := [(ascii "goals", mavenTask.Targets)] }
    let step : Step := { Name := ascii "maven", Type_ := ascii "plugin", Spec := some (.plugin spec) }
    some step

/-- The builder `convertGradleFileTaskToStep`. -/
def convertGradleFileTaskToStep (lib : Lib) (task : Task) : Option Step :=
  match lib.unmarshalGradle (ascii "<builders>" ++ task.Content ++ ascii "</builders>") with
  | none => none
  | some gradleTask =>
    let spec : Buildspec :=
      { Language := ascii "Java",
        BuildTool := ascii "Gradle",
        Args := gradleTask.Tasks,
        RunOnlySelectedTests := false,
        Reports := [{ Type_ := ascii "JUnit", Spec := some { Paths := [ascii "**/*.xml"] } }],
        EnableTestSplitting := false }
    let step : Step :=
      { Name := ascii "Gradle", Type_ := ascii "RunTests", Spec := some (.buildspec spec) }
    some step

/-- The builder `convertTimeoutTaskToStep`; `fmt.Sprintf("%sm", s)` is `s` followed by `m`. -/
def convertTimeoutTaskToStep (lib : Lib) (task : Task) : Option Step :=
  let xmlContent := lib.TrimSpace task.Content
  match lib.unmarshalTimeout xmlContent with
  | none => none
  | some timeoutTask =>
    let timeoutValue := timeoutTask.TimeoutMinutes ++ ascii "m"
    let spec : StepExec := {}
    let step : Step :=
      { Spec := some (.exec spec), Name := ascii "Run0", Type_ := ascii "script",
        Timeout := timeoutValue }
    some step

/-- The builder `convertBatchFileTaskToStep`. -/
def convertBatchFileTaskToStep (lib : Lib) (task : Task) : Option Step :=
  match lib.unmarshalBatch (ascii "<builders>" ++ task.Content ++ ascii "</builders>") with
  | none => none
  | some batchTask =>
    let spec : StepExec := { Run := batchTask.Command }
    let step : Step := { Name := ascii "shell", Type_ := ascii "script", Spec := some (.exec spec) }
    some step

/-- The builder `convertAntTaskToStep`. -/
def convertAntTaskToStep (lib : Lib) (task : Task) : Option Step :=
  match lib.unmarshalAnt (ascii "<builders>" ++ task.Content ++ ascii "</builders>") with
  | none => none
  | some antTask =>
    let spec : StepPlugin :=
      { Image := ascii "harnesscommunitytest/ant-plugin",
        Inputs := [(ascii "goals", antTask.Targets)] }
    let step : Step := { Name := ascii "ant", Type_ := ascii "plugin", Spec := some (.plugin spec) }
    some step

/-- The builder `convertShellTaskToStep`. -/
def convertShellTaskToStep (lib : Lib) (task : Task) : Option Step :=
  match lib.unmarshalShell (ascii "<builders>" ++ task.Content ++ ascii "</builders>") with
  | none => none
  | some shellTask =>
    let spec : StepExec := { Run := shellTask.Command }
    let step : Step := { Name := ascii "shell", Type_ := ascii "script", Spec := some (.exec spec) }
    some step

/-- The builder `unsupportedTaskToStep`; it always returns a non-nil step. -/
def unsupportedTaskToStep (task : GoString) : Step :=
  let spec : StepExec := { Run := ascii "echo Unsupported field " ++ task }
  let step : Step := { Name := ascii "shell", Type_ := ascii "script", Spec := some (.exec spec) }
  step

/-- The body of the loop of `Converter.convert` (lines 144-165): the `switch`
on the element name of the task, giving the step that is appended. -/
def taskToStep (lib : Lib) (task : Task) : Option Step :=
  let taskname := task.XMLName.Local
  if taskname = ascii "hudson.tasks.Shell" then convertShellTaskToStep lib task
  else if taskname = ascii "hudson.tasks.Ant" then convertAntTaskToStep lib task
  else if taskname = ascii "hudson.tasks.BatchFile" then convertBatchFileTaskToStep lib task
  else if taskname = ascii "hudson.plugins.gradle.Gradle" then convertGradleFileTaskToStep lib task
  else if taskname = ascii "hudson.tasks.Maven" then convertMavenTaskToStep lib task
  else if taskname = ascii "hudson.plugins.build__timeout.BuildStepWithTimeout" then
    convertTimeoutTaskToStep lib task
  else some (unsupportedTaskToStep taskname)

/-- The value of `config` when `Converter.convert` reaches `yaml.Marshal`
(lines 114-169).  The stage is shared by pointer, so the pipeline sees the
steps assigned to it after it was appended to `dst.Stages`.  The receiver is
not read by `convert` and is left out. -/
def convertConfig (lib : Lib) (ctx : Context) : Config :=
  let tasks := ctx.config.Builders.Tasks
  let stageSteps : List (Option Step) :=
    tasks.foldl (fun stageSteps task => stageSteps ++ [taskToStep lib task]) []
  let dstStage : Stage := { Type_ := ascii "ci", Name := ascii "ci", Spec := { Steps := stageSteps } }
  let dst : Pipeline := { Stages := [] ++ [dstStage] }
  { Version := 1, Kind := ascii "pipeline", Spec := dst }

/-- The method `Converter.convert`: the marshalled config, or the error of `yaml.Marshal`. -/
def convert (lib : Lib) (ctx : Context) : Except GoString GoString :=
  lib.yamlMarshal (convertConfig lib ctx)

/-- The six element names that have a `case` in the `switch` of `convert`. -/
def recognisedKinds : List GoString :=
  [ascii "hudson.tasks.Shell", ascii "hudson.tasks.Ant", ascii "hudson.tasks.BatchFile",
   ascii "hudson.plugins.gradle.Gradle", ascii "hudson.tasks.Maven",
   ascii "hudson.plugins.build__timeout.BuildStepWithTimeout"]

/-- The ASCII white space removed by `strings.TrimSpace`: tab, line feed,
vertical tab, form feed, carriage return and space. -/
def isAsciiSpace (b : Nat) : Bool :=
  b == 9 || b == 10 || b == 11 || b == 12 || b == 13 || b == 32

/-- An instance of the library functions for the worked examples:
`strings.TrimSpace` as it acts on ASCII text, and for each `xml.Unmarshal` the
result `encoding/xml` gives on one document (any other document is rejected
here).  For the timeout struct a second document is listed, in which
`timeoutMinutes` is not a child of the root element, so that the field stays
empty.  The marshaller is not exercised and returns an empty document. -/
def exampleLib : Lib where
  TrimSpace := fun s => List.rdropWhile isAsciiSpace (List.dropWhile isAsciiSpace s)
  unmarshalShell := fun data =>
    if data = ascii "<builders><command>echo hi</command></builders>" then
      some { Command := ascii "echo hi" }
    else none
  unmarshalAnt := fun data =>
    if data = ascii "<builders><targets>clean dist</targets></builders>" then
      some { Targets := ascii "clean dist" }
    else none
  unmarshalBatch := fun data =>
    if data = ascii "<builders><command>dir</command></builders>" then
      some { Command := ascii "dir" }
    else none
  unmarshalGradle := fun data =>
    if data = ascii "<builders><tasks>clean build test</tasks></builders>" then
      some { Tasks := ascii "clean build test" }
    else none
  unmarshalMaven := fun data =>
    if data = ascii "<builders><targets>clean install</targets></builders>" then
      some { Targets := ascii "clean install" }
    else none
  unmarshalTimeout := fun data =>
    if data = ascii "<strategy><timeoutMinutes>10</timeoutMinutes></strategy>" then
      some { TimeoutMinutes := ascii "10" }
    else if data = ascii
        "<builders>\n  <strategy><timeoutMinutes>10</timeoutMinutes></strategy>\n</builders>" then
      some { TimeoutMinutes := [] }
    else none
  yamlMarshal := fun _ => Except.ok []

/-- A shell task with the command `echo hi`. -/
def exampleShellTask : Task :=
  { XMLName := { Local := ascii "hudson.tasks.Shell" },
    Content := ascii "<command>echo hi</command>" }

/-- A Gradle task with the tasks string `clean build test`. -/
def exampleGradleTask : Task :=
  { XMLName := { Local := ascii "hudson.plugins.gradle.Gradle" },
    Content := ascii "<tasks>clean build test</tasks>" }

/-- A build-timeout task with a timeout of 10 minutes. -/
def exampleTimeoutTask : Task :=
  { XMLName := { Local := ascii "hudson.plugins.build__timeout.BuildStepWithTimeout" },
    Content := ascii "\n  <strategy><timeoutMinutes>10</timeoutMinutes></strategy>\n" }

/-- A task of a kind the converter does not know. -/
def exampleUnknownTask : Task :=
  { XMLName := { Local := ascii "com.foo.Unknown" } }

/-- A project with a shell task followed by a task of an unknown kind. -/
def exampleContext : Context :=
  { config := { Builders := { Tasks := [exampleShellTask, exampleUnknownTask] } } }

/-- A shell task whose content is not well-formed: `command` is never closed,
so `xml.Unmarshal` reports a syntax error on the wrapped text. -/
def exampleBrokenShellTask : Task :=
  { XMLName := { Local := ascii "hudson.tasks.Shell" },
    Content := ascii "<command>echo hi" }

/-- The steps of a config in pipeline order: the non-nil entries of the step
lists of its stages. -/
def Config.steps (config : Config) : List Step :=
  config.Spec.Stages.flatMap (fun stage => stage.Spec.Steps.filterMap (fun step => step))

/-! ## `convert/gitlab/yaml`: `InheritKeys` -/

/-- Modelled from the spec: the struct `InheritKeys` of `convert/gitlab/yaml`,
with the two fields that the composite literals of `inherit_test.go` set.  Its
declaration is in `inherit.go`, of which only the test is available. -/
structure InheritKeys where
  All : Bool := false
  Keys : List GoString := []
deriving DecidableEq

/-- Modelled from the spec: the YAML values that `inherit_test.go` feeds to
the decoder, by shape: a boolean scalar, a sequence of strings, a mapping
(given by its keys), or any other scalar. -/
inductive YamlValue where
  | boolean (b : Bool)
  | strings (keys : List GoString)
  | mapping (keys : List GoString)
  | scalar (text : GoString)
deriving DecidableEq

/-- Modelled from the spec: the method `InheritKeys.UnmarshalYAML` of
`inherit.go`, which is not available; it follows the three cases of
`TestInheritKeys` and `TestInheritKeys_Error`: the boolean `false` gives
`InheritKeys{All: true}`, a list of strings gives `InheritKeys{Keys: ...}`, and
the mapping `{}` gives the error `failed to unmarshal inherit keys`. -/
def InheritKeys.UnmarshalYAML : YamlValue → Except GoString InheritKeys
  | .boolean _ => .ok { All := true }
  | .strings keys => .ok { Keys := keys }
  | _ => .error (ascii "failed to unmarshal inherit keys")

/-! ## `convert/jenkinsjson/json/jacoco.go` -/

/-- A dynamic value held in an `interface{}`: the kinds the mapping rules of
`jacoco.go` name. -/
inductive GoValue where
  | str (s : GoString)
  | bool (b : Bool)
  | float64 (text : GoString)
deriving DecidableEq

/-- Modelled from the spec: the `DialectNode` of the Jenkins JSON converter, a
"read-only attribute bag"; `notification_test.go` reads its field
`ParameterMap`.  The struct `Node` is declared outside `jacoco.go`. -/
structure Node where
  ParameterMap : List (GoString × GoValue) := []
deriving DecidableEq

/-- Modelled from the spec: the `CoercionKind` of a mapping rule, with the three
constants that `jacoco.go` uses (declared outside `jacoco.go`). -/
inductive ParamType where
  | BoolType
  | StringType
  | StringToFloat64Type
deriving DecidableEq

/-- The type of a custom setter: it receives the node (a pointer, possibly
nil), the attribute map and a key, and returns a value and an error (`none`
is the nil error). -/
abbrev CustomSetter :=
  Option Node → List (GoString × GoValue) → GoString → GoValue × Option GoString

/-- Modelled from the spec: a `MappingRule` "{sourceKey, destKey, coercionKind,
optional custom setter}".  The struct `JenkinsToDroneParamMapper` is declared
outside `jacoco.go`, whose literals give the four fields by position. -/
structure JenkinsToDroneParamMapper where
  sourceKey : GoString
  destKey : GoString
  coercionKind : ParamType
  customSetter : Option CustomSetter

/-- The function `SetJacocoTool`. -/
def SetJacocoTool : CustomSetter :=
  fun _node _attrMap _jenkinsKey => (GoValue.str (ascii "jacoco"), none)

/-- The table `JacocoJenkinsToDroneParamMapperList`. -/
def JacocoJenkinsToDroneParamMapperList : List JenkinsToDroneParamMapper :=
  [⟨ascii "changeBuildStatus", ascii "fail_on_threshold", .BoolType, none⟩,
   ⟨ascii "classPattern", ascii "class_directories", .StringType, none⟩,
   ⟨ascii "exclusionPattern", ascii "class_exclusion_pattern", .StringType, none⟩,
   ⟨ascii "inclusionPattern", ascii "class_inclusion_pattern", .StringType, none⟩,
   ⟨ascii "execPattern", ascii "reports_path_pattern", .StringType, none⟩,
   ⟨ascii "skipCopyOfSrcFiles", ascii "skip_source_copy", .BoolType, none⟩,
   ⟨ascii "sourcePattern", ascii "source_directories", .StringType, none⟩,
   ⟨ascii "sourceExclusionPattern", ascii "source_exclusion_pattern", .StringType, none⟩,
   ⟨ascii "sourceInclusionPattern", ascii "source_inclusion_pattern", .StringType, none⟩,
   ⟨ascii "minimumBranchCoverage", ascii "threshold_branch", .StringToFloat64Type, none⟩,
   ⟨ascii "minimumClassCoverage", ascii "threshold_class", .StringToFloat64Type, none⟩,
   ⟨ascii "minimumComplexityCoverage", ascii "threshold_complexity", .StringToFloat64Type, none⟩,
   ⟨ascii "minimumInstructionCoverage", ascii "threshold_instruction", .StringToFloat64Type, none⟩,
   ⟨ascii "minimumLineCoverage", ascii "threshold_line", .StringToFloat64Type, none⟩,
   ⟨ascii "minimumMethodCoverage", ascii "threshold_method", .StringToFloat64Type, none⟩,
   ⟨ascii "tool", ascii "tool", .StringType, some SetJacocoTool⟩]

/-- Two neighbouring bytes are not both separators. -/
def notBothSeparators (a b : Nat) : Bool := !(isSeparator a && isSeparator b)

/-- Whether a string contains two adjacent separators. -/
def hasAdjacentSeparators : GoString → Bool
  | a :: b :: rest => (isSeparator a && isSeparator b) || hasAdjacentSeparators (b :: rest)
  | _ => false

/-- A name of 129 bytes: 127 times the letter `a`, an underscore and `b`. -/
def exampleLongName : GoString := List.replicate 127 97 ++ ascii "_b"

/-! ## The mapping engine applied to the JaCoCo rules -/

/-- Modelled from the spec: what one `MappingRule` contributes to a step
(section 4.1 and the first property of section 8).  The evaluator
`ConvertToStepUsingParameterMapDelegate` is declared outside `jacoco.go`.  A
destination field is populated when a custom setter is registered, which
"receives the full bag and destKey" and gives the value, or when the source key
is present in the attribute bag and the coercion succeeds; an absent source
key is skipped.  The coercion itself is a parameter. -/
def applyRule (coerce : ParamType → GoValue → Option GoValue) (node : Option Node)
    (attrMap : List (GoString × GoValue)) (rule : JenkinsToDroneParamMapper) :
    Option (GoString × GoValue) :=
  match rule.customSetter with
  | some setter => some (rule.destKey, (setter node attrMap rule.destKey).1)
  | none =>
    match attrMap.lookup rule.sourceKey with
    | none => none
    | some value => (coerce rule.coercionKind value).map (fun coerced => (rule.destKey, coerced))

/-- Modelled from the spec: the destination entries produced by an ordered rule
list, "for each rule" in turn (section 4.1). -/
def applyRules (coerce : ParamType → GoValue → Option GoValue) (node : Option Node)
    (attrMap : List (GoString × GoValue)) (rules : List JenkinsToDroneParamMapper) :
    List (GoString × GoValue) :=
  rules.filterMap (applyRule coerce node attrMap)

/-- A coercion for the worked examples: a value of the expected dynamic type is
kept (a string for `StringToFloat64Type`, turned into a float), any other is
rejected. -/
def exampleCoerce : ParamType → GoValue → Option GoValue
  | .BoolType, .bool b => some (.bool b)
  | .StringType, .str s => some (.str s)
  | .StringToFloat64Type, .str s => some (.float64 s)
  | _, _ => none

/-- An attribute bag of a JaCoCo node. -/
def exampleAttrMap : List (GoString × GoValue) :=
  [(ascii "classPattern", .str (ascii "**/classes")),
   (ascii "changeBuildStatus", .bool true),
   (ascii "minimumLineCoverage", .str (ascii "80"))]

/-! ## `convert/circle/internal/orbs/orbs.go` -/

namespace orbs

/-- The converters of the ten orb packages that `Convert` dispatches to; they
are declared in packages of their own.  `Custom` stands for `circle.Custom`
and `Step` for `harness.Step`; a nil step is `none`.  The converter of
`browser-tools` also takes the version. -/
structure Converters (Custom Step : Type) where
  codecov : GoString → Option Custom → Option Step
  coveralls : GoString → Option Custom → Option Step
  browser_tools : GoString → GoString → Option Custom → Option Step
  golang : GoString → Option Custom → Option Step
  node : GoString → Option Custom → Option Step
  ruby : GoString → Option Custom → Option Step
  slack : GoString → Option Custom → Option Step
  datadog : GoString → Option Custom → Option Step
  localstack : GoString → Option Custom → Option Step
  saucelabs : GoString → Option Custom → Option Step

/-- The function `Convert` of package `orbs`: the `switch` on the orb name. -/
def Convert {Custom Step : Type} (pkg : Converters Custom Step)
    (name command version : GoString) (step : Option Custom) : Option Step :=
  if name = ascii "codecov/codecov" then pkg.codecov command step
  else if name = ascii "coveralls/coveralls" then pkg.coveralls command step
  else if name = ascii "circleci/browser-tools" then pkg.browser_tools command version step
  else if name = ascii "circleci/go" then pkg.golang command step
  else if name = ascii "circleci/node" then pkg.node command step
  else if name = ascii "circleci/ruby" then pkg.ruby command step
  else if name = ascii "circleci/slack" then pkg.slack command step
  else if name = ascii "datadog/agent" then pkg.datadog command step
  else if name = ascii "localstack/platform" then pkg.localstack command step
  else if name = ascii "saucelabs/saucectl-run" then pkg.saucelabs command step
  else none

/-- The ten orb names that have a `case` in `Convert`. -/
def recognisedOrbs : List GoString :=
  [ascii "codecov/codecov", ascii "coveralls/coveralls", ascii "circleci/browser-tools",
   ascii "circleci/go", ascii "circleci/node", ascii "circleci/ruby", ascii "circleci/slack",
   ascii "datadog/agent", ascii "localstack/platform", ascii "saucelabs/saucectl-run"]

/-- Converters for the worked examples: each returns a step named after its
orb, whatever the command. -/
def exampleConverters : Converters Unit GoString where
  codecov := fun _ _ => some (ascii "codecov")
  coveralls := fun _ _ => some (ascii "coveralls")
  browser_tools := fun _ _ _ => some (ascii "browser-tools")
  golang := fun _ _ => some (ascii "go")
  node := fun _ _ => some (ascii "node")
  ruby := fun _ _ => some (ascii "ruby")
  slack := fun _ _ => some (ascii "slack")
  datadog := fun _ _ => some (ascii "datadog")
  localstack := fun _ _ => some (ascii "localstack")
  saucelabs := fun _ _ => some (ascii "saucelabs")

end orbs

/-! ## Lemmas on the sanitisers -/

theorem replaceInvalidRunsAux_mem (keep : Nat → Bool) (h95 : keep 95 = true) :
    ∀ (s : GoString) (inRun : Bool), ∀ b ∈ replaceInvalidRunsAux keep inRun s, keep b = true := by
  intro s
  induction s with
  | nil => intro inRun b hb; simp [replaceInvalidRunsAux] at hb
  | cons a rest ih =>
    intro inRun b hb
    unfold replaceInvalidRunsAux at hb
    by_cases ha : keep a = true
    · rw [if_pos ha] at hb
      rcases List.mem_cons.mp hb with h | h
      · rw [h]; exact ha
      · exact ih false b h
    · rw [if_neg ha] at hb
      cases inRun with
      | true => exact ih true b (by simpa using hb)
      | false =>
        rcases List.mem_cons.mp (by simpa using hb) with h | h
        · rw [h]; exact h95
        · exact ih true b h

theorem replaceInvalidRuns_mem (keep : Nat → Bool) (h95 : keep 95 = true) (s : GoString) :
    ∀ b ∈ replaceInvalidRuns keep s, keep b = true :=
  replaceInvalidRunsAux_mem keep h95 s false

theorem mem_of_mem_trimUnderscores {s : GoString} {b : Nat} (h : b ∈ trimUnderscores s) :
    b ∈ s := by
  unfold trimUnderscores at h
  exact (List.dropWhile_suffix _).subset ((List.rdropWhile_prefix _ _).subset h)

theorem unamed_length : unamed.length = 6 := by decide

theorem unamed_mem : ∀ b ∈ unamed, isWordByte b = true := by decide

theorem mem_of_mem_truncate {n : Nat} {s : GoString} {b : Nat}
    (h : b ∈ (if s.length > n then s.take n else s)) : b ∈ s := by
  split at h
  · exact List.mem_of_mem_take h
  · exact h

theorem truncate_length_le (n : Nat) (s : GoString) :
    (if s.length > n then s.take n else s).length ≤ n := by
  split
  · rw [List.length_take]; omega
  · omega

theorem truncate_length_pos {n : Nat} {s : GoString} (hn : 1 ≤ n) (hs : 1 ≤ s.length) :
    1 ≤ (if s.length > n then s.take n else s).length := by
  split
  · rw [List.length_take]; omega
  · omega

theorem orElse_length_pos {d s : GoString} (hd : 1 ≤ d.length) :
    1 ≤ (if s = [] then d else s).length := by
  split
  · exact hd
  · next h => exact List.length_pos.mpr h

theorem mem_orElse {P : Nat → Prop} {d s : GoString} (hd : ∀ b ∈ d, P b) (hs : ∀ b ∈ s, P b) :
    ∀ b ∈ (if s = [] then d else s), P b := by
  split
  · exact hd
  · exact hs

theorem sanitizedIdName_mem (spanName : GoString) :
    ∀ b ∈ sanitizedIdName spanName, isWordByte b = true := by
  intro b hb
  have hbase : ∀ b ∈ trimUnderscores (replaceInvalidRuns isWordByte spanName),
      isWordByte b = true := fun b hb =>
    replaceInvalidRuns_mem isWordByte (by decide) spanName b (mem_of_mem_trimUnderscores hb)
  exact mem_orElse unamed_mem hbase b (mem_of_mem_truncate hb)

theorem sanitizedIdName_length (spanName : GoString) :
    1 ≤ (sanitizedIdName spanName).length ∧ (sanitizedIdName spanName).length ≤ 58 :=
  ⟨truncate_length_pos (by decide) (orElse_length_pos (by decide)), truncate_length_le 58 _⟩

theorem SanitizeForId_eq {spanId : GoString} (spanName : GoString) (h : 6 ≤ spanId.length) :
    SanitizeForId spanName spanId = some (sanitizedIdName spanName ++ spanId.take 6) := by
  simp only [SanitizeForId]
  rw [if_neg (by omega)]

theorem mem_of_mem_collapseSeparators :
    ∀ (s : GoString) (b : Nat), b ∈ collapseSeparators s → b ∈ s
  | [], b, h => by simp [collapseSeparators] at h
  | [a], b, h => by simpa [collapseSeparators] using h
  | a :: c :: rest, b, h => by
    rw [collapseSeparators] at h
    split at h
    · exact List.mem_cons_of_mem _ (mem_of_mem_collapseSeparators (c :: rest) b h)
    · rcases List.mem_cons.mp h with h | h
      · rw [h]; exact List.mem_cons_self _ _
      · exact List.mem_cons_of_mem _ (mem_of_mem_collapseSeparators (c :: rest) b h)

theorem trimmedName_mem (spanName : GoString) :
    ∀ b ∈ trimRight (trimLeft (collapseSeparators (replaceInvalidRuns isNameByte spanName))),
      isNameByte b = true := by
  intro b hb
  have h1 := (List.rdropWhile_prefix isTrimByte _).subset hb
  have h2 := (List.dropWhile_suffix isTrimByte).subset h1
  exact replaceInvalidRuns_mem isNameByte (by decide) spanName b
    (mem_of_mem_collapseSeparators _ b h2)

/-! ## `SanitizeForId` -/

/-- C1 (as amended): for a span id of at least six bytes `SanitizeForId` returns
an id whose bytes before the six-byte suffix are all ASCII letters, digits or
underscores, and the whole id consists of such bytes exactly when the first six
bytes of the span id do. -/
theorem SanitizeForId_charset (spanName spanId : GoString) (h : 6 ≤ spanId.length) :
    ∃ id, SanitizeForId spanName spanId = some id ∧
      (∀ b ∈ id.take (id.length - 6), isWordByte b = true) ∧
      ((∀ b ∈ id, isWordByte b = true) ↔ ∀ b ∈ spanId.take 6, isWordByte b = true) := by
  refine ⟨_, SanitizeForId_eq spanName h, ?_, ?_⟩
  · have hlen : (sanitizedIdName spanName ++ spanId.take 6).length - 6
        = (sanitizedIdName spanName).length := by
      rw [List.length_append, List.length_take]; omega
    rw [hlen, List.take_left]
    exact sanitizedIdName_mem spanName
  · constructor
    · intro hall b hb
      exact hall b (List.mem_append_right _ hb)
    · intro hsuf b hb
      rcases List.mem_append.mp hb with hb | hb
      · exact sanitizedIdName_mem spanName b hb
      · exact hsuf b hb

/-- C1 witness: the id of the notification test consists of word bytes only. -/
theorem SanitizeForId_charset_witness :
    6 ≤ (ascii "c1ca8f0012345678").length ∧
    ∃ id, SanitizeForId (ascii "notify Endpoints") (ascii "c1ca8f0012345678") = some id ∧
      (∀ b ∈ id.take (id.length - 6), isWordByte b = true) ∧
      ((∀ b ∈ id, isWordByte b = true) ↔
        ∀ b ∈ (ascii "c1ca8f0012345678").take 6, isWordByte b = true) :=
  ⟨by decide, SanitizeForId_charset _ _ (by decide)⟩

/-- C1 (as stated) fails: the span id `ab-cde` is six bytes long and the id
returned for it contains a hyphen. -/
theorem SanitizeForId_charset_counterexample :
    6 ≤ (ascii "ab-cde").length ∧
    SanitizeForId (ascii "build") (ascii "ab-cde") = some (ascii "buildab-cde") ∧
    ¬ (∀ b ∈ ascii "buildab-cde", isWordByte b = true) := by
  decide

/-- C2 (as amended): for span ids of at least six bytes, two calls return the
same id exactly when the sanitized names (placeholder applied, cut to 58 bytes)
are equal and the span ids agree on their first six bytes; so the ids differ
whenever the six-byte prefixes of the span ids differ. -/
theorem SanitizeForId_eq_iff (name1 spanId1 name2 spanId2 : GoString)
    (h1 : 6 ≤ spanId1.length) (h2 : 6 ≤ spanId2.length) :
    (SanitizeForId name1 spanId1 = SanitizeForId name2 spanId2 ↔
      sanitizedIdName name1 = sanitizedIdName name2 ∧ spanId1.take 6 = spanId2.take 6) ∧
    (spanId1.take 6 ≠ spanId2.take 6 →
      SanitizeForId name1 spanId1 ≠ SanitizeForId name2 spanId2) := by
  have hlen : (spanId1.take 6).length = (spanId2.take 6).length := by
    rw [List.length_take, List.length_take]; omega
  have key : SanitizeForId name1 spanId1 = SanitizeForId name2 spanId2 ↔
      sanitizedIdName name1 = sanitizedIdName name2 ∧ spanId1.take 6 = spanId2.take 6 := by
    rw [SanitizeForId_eq name1 h1, SanitizeForId_eq name2 h2]
    constructor
    · intro h
      exact List.append_inj' (Option.some.inj h) hlen
    · rintro ⟨hn, hs⟩
      rw [hn, hs]
  exact ⟨key, fun hne heq => hne (key.mp heq).2⟩

/-- C2 witness: two spans with the same name and different span-id prefixes. -/
theorem SanitizeForId_eq_iff_witness :
    (SanitizeForId (ascii "build") (ascii "c1ca8f01") = SanitizeForId (ascii "build") (ascii "d2ca8f01")
      ↔ sanitizedIdName (ascii "build") = sanitizedIdName (ascii "build") ∧
        (ascii "c1ca8f01").take 6 = (ascii "d2ca8f01").take 6) ∧
    ((ascii "c1ca8f01").take 6 ≠ (ascii "d2ca8f01").take 6 →
      SanitizeForId (ascii "build") (ascii "c1ca8f01")
        ≠ SanitizeForId (ascii "build") (ascii "d2ca8f01")) :=
  SanitizeForId_eq_iff (ascii "build") (ascii "c1ca8f01") (ascii "build") (ascii "d2ca8f01")
    (by decide) (by decide)

/-- C2 (as stated) fails: two distinct calls, whose span ids are eight bytes
long and differ only after the sixth byte, return the same id. -/
theorem SanitizeForId_unique_counterexample :
    (ascii "build", ascii "c1ca8f01") ≠ (ascii "build", ascii "c1ca8f02") ∧
    6 ≤ (ascii "c1ca8f01").length ∧ 6 ≤ (ascii "c1ca8f02").length ∧
    SanitizeForId (ascii "build") (ascii "c1ca8f01")
      = SanitizeForId (ascii "build") (ascii "c1ca8f02") := by
  decide

/-- C3: for a span id of at least six bytes, `SanitizeForId` returns
`p ++ spanId[:6]` where `p`, the sanitized name, has between 1 and 58 bytes and
only word bytes; the id is therefore non-empty and at most 64 bytes long. -/
theorem SanitizeForId_shape (spanName spanId : GoString) (h : 6 ≤ spanId.length) :
    ∃ p id, p = sanitizedIdName spanName ∧
      SanitizeForId spanName spanId = some id ∧ id = p ++ spanId.take 6 ∧
      1 ≤ p.length ∧ p.length ≤ 58 ∧ (spanId.take 6).length = 6 ∧
      id ≠ [] ∧ id.length ≤ 64 := by
  have hp := sanitizedIdName_length spanName
  have hs : (spanId.take 6).length = 6 := by rw [List.length_take]; omega
  refine ⟨_, _, rfl, SanitizeForId_eq spanName h, rfl, hp.1, hp.2, hs, ?_, ?_⟩
  · intro hnil
    have := congrArg List.length hnil
    rw [List.length_append] at this
    simp only [List.length_nil] at this
    omega
  · rw [List.length_append]; omega

/-- C3 witness: the name `notifyEndpoints` with a span id starting `c1ca8f`
gives `notifyEndpointsc1ca8f`, the id expected by `TestConvertNotification`. -/
theorem SanitizeForId_shape_witness :
    SanitizeForId (ascii "notifyEndpoints") (ascii "c1ca8f0012345678")
      = some (ascii "notifyEndpointsc1ca8f") ∧
    6 ≤ (ascii "c1ca8f0012345678").length ∧
    ∃ p id, p = sanitizedIdName (ascii "notifyEndpoints") ∧
      SanitizeForId (ascii "notifyEndpoints") (ascii "c1ca8f0012345678") = some id ∧
      id = p ++ (ascii "c1ca8f0012345678").take 6 ∧
      1 ≤ p.length ∧ p.length ≤ 58 ∧ ((ascii "c1ca8f0012345678").take 6).length = 6 ∧
      id ≠ [] ∧ id.length ≤ 64 :=
  ⟨by decide, by decide, SanitizeForId_shape _ _ (by decide)⟩

/-! ## `SanitizeForName` -/

/-- C4: the result of `SanitizeForName` has at most 128 bytes and, with a
non-empty `harness.DefaultName`, is never empty. -/
theorem SanitizeForName_length (DefaultName spanName : GoString) (hD : DefaultName ≠ []) :
    (SanitizeForName DefaultName spanName).length ≤ 128 ∧
    SanitizeForName DefaultName spanName ≠ [] := by
  refine ⟨truncate_length_le 128 _, ?_⟩
  have hpos : 1 ≤ (SanitizeForName DefaultName spanName).length :=
    truncate_length_pos (by decide) (orElse_length_pos (List.length_pos.mpr hD))
  exact List.length_pos.mp hpos

/-- C4 witness: a name made of separators only falls back to the placeholder. -/
theorem SanitizeForName_length_witness :
    ascii "default" ≠ [] ∧
    (SanitizeForName (ascii "default") (ascii "__ ??")).length ≤ 128 ∧
    SanitizeForName (ascii "default") (ascii "__ ??") ≠ [] :=
  ⟨by decide, SanitizeForName_length _ _ (by decide)⟩

/-- C5: when `harness.DefaultName` consists of ASCII letters, digits,
underscores, hyphens and spaces, so does every result of `SanitizeForName`. -/
theorem SanitizeForName_charset (DefaultName spanName : GoString)
    (hD : ∀ b ∈ DefaultName, isNameByte b = true) :
    ∀ b ∈ SanitizeForName DefaultName spanName, isNameByte b = true := by
  intro b hb
  exact mem_orElse hD (trimmedName_mem spanName) b (mem_of_mem_truncate hb)

/-- C5 witness: a name with punctuation, sanitized with placeholder `default`. -/
theorem SanitizeForName_charset_witness :
    (∀ b ∈ ascii "default", isNameByte b = true) ∧
    ∀ b ∈ SanitizeForName (ascii "default") (ascii "Build & Test (#1)"), isNameByte b = true :=
  ⟨by decide, SanitizeForName_charset _ _ (by decide)⟩

/-! ## The Jenkins XML converter -/

theorem foldl_append_singleton {α β : Type} (f : α → β) (l : List α) (init : List β) :
    l.foldl (fun acc a => acc ++ [f a]) init = init ++ l.map f := by
  induction l generalizing init with
  | nil => simp
  | cons a rest ih => simp [ih]

theorem convertConfig_steps (lib : Lib) (ctx : Context) :
    (convertConfig lib ctx).Spec.Stages
      = [{ Type_ := ascii "ci", Name := ascii "ci",
           Spec := { Steps := ctx.config.Builders.Tasks.map (taskToStep lib) } }] := by
  simp [convertConfig, foldl_append_singleton]

theorem taskToStep_unsupported (lib : Lib) (task : Task)
    (hk : task.XMLName.Local ∉ recognisedKinds) :
    taskToStep lib task = some (unsupportedTaskToStep task.XMLName.Local) := by
  simp only [recognisedKinds, List.mem_cons, List.mem_singleton, List.not_mem_nil, or_false,
    not_or] at hk
  obtain ⟨h1, h2, h3, h4, h5, h6⟩ := hk
  simp only [taskToStep]
  rw [if_neg h1, if_neg h2, if_neg h3, if_neg h4, if_neg h5, if_neg h6]

/-- C6: a task whose element name is none of the six recognised kinds is turned
by the loop of `convert` into an actual step (not nil) of type `script` whose
exec spec runs `echo Unsupported field <kind>`, and that step stands at the
position of the task in the single stage of the config that is marshalled. -/
theorem convert_unsupported_task (lib : Lib) (ctx : Context) (i : Nat) (task : Task)
    (hi : ctx.config.Builders.Tasks[i]? = some task)
    (hk : task.XMLName.Local ∉ recognisedKinds) :
    ∃ step : Step,
      taskToStep lib task = some step ∧
      step.Type_ = ascii "script" ∧
      step.Spec = some (.exec { Run := ascii "echo Unsupported field " ++ task.XMLName.Local }) ∧
      step = unsupportedTaskToStep task.XMLName.Local ∧
      ((convertConfig lib ctx).Spec.Stages.map (fun stage => stage.Spec.Steps[i]?))
        = [some (some step)] ∧
      convert lib ctx = lib.yamlMarshal (convertConfig lib ctx) := by
  refine ⟨_, taskToStep_unsupported lib task hk, rfl, rfl, rfl, ?_, rfl⟩
  rw [convertConfig_steps]
  simp [List.getElem?_map, hi, taskToStep_unsupported lib task hk]

/-- C6 witness: the kind `com.foo.Unknown`, second task of the example project,
gives the command `echo Unsupported field com.foo.Unknown`. -/
theorem convert_unsupported_task_witness :
    unsupportedTaskToStep (ascii "com.foo.Unknown")
      = { Name := ascii "shell", Type_ := ascii "script",
          Spec := some (.exec { Run := ascii "echo Unsupported field com.foo.Unknown" }) } ∧
    ∃ step : Step,
      taskToStep exampleLib exampleUnknownTask = some step ∧
      step.Type_ = ascii "script" ∧
      step.Spec = some (.exec { Run := ascii "echo Unsupported field "
        ++ (ascii "com.foo.Unknown") }) ∧
      step = unsupportedTaskToStep (ascii "com.foo.Unknown") ∧
      ((convertConfig exampleLib exampleContext).Spec.Stages.map
        (fun stage => stage.Spec.Steps[1]?)) = [some (some step)] ∧
      convert exampleLib exampleContext
        = exampleLib.yamlMarshal (convertConfig exampleLib exampleContext) :=
  ⟨by decide,
   convert_unsupported_task exampleLib exampleContext
    1 exampleUnknownTask (by decide) (by decide)⟩

/-- C7: when the command `c` is what `xml.Unmarshal` reads from the wrapped
content of a shell task, `convertShellTaskToStep` returns a step named `shell`
whose spec is a `StepExec` with `Run` equal to `c`, unaltered. -/
theorem convertShellTaskToStep_run (lib : Lib) (task : Task) (shellTask : HudsonShellTask)
    (c : GoString) (hc : shellTask.Command = c)
    (hparse : lib.unmarshalShell (ascii "<builders>" ++ task.Content ++ ascii "</builders>")
      = some shellTask) :
    ∃ step : Step,
      convertShellTaskToStep lib task = some step ∧
      step.Name = ascii "shell" ∧
      step.Spec = some (.exec { Run := c }) := by
  refine ⟨⟨[], ascii "shell", ascii "script", [], some (.exec ⟨c⟩)⟩, ?_, rfl, rfl⟩
  simp only [convertShellTaskToStep, hparse, hc]

/-- C7 witness: the command `echo hi`. -/
theorem convertShellTaskToStep_run_witness :
    convertShellTaskToStep exampleLib exampleShellTask
      = some { Name := ascii "shell", Type_ := ascii "script",
               Spec := some (.exec { Run := ascii "echo hi" }) } ∧
    ∃ step : Step,
      convertShellTaskToStep exampleLib exampleShellTask = some step ∧
      step.Name = ascii "shell" ∧
      step.Spec = some (.exec { Run := ascii "echo hi" }) :=
  ⟨by decide,
   convertShellTaskToStep_run exampleLib exampleShellTask { Command := ascii "echo hi" } (ascii "echo hi")
    rfl (by decide)⟩

/-- C8: when the tasks string `t` is what `xml.Unmarshal` reads from the wrapped
content of a Gradle task, `convertGradleFileTaskToStep` returns a step whose
spec is a `Buildspec` with language `Java`, build tool `Gradle`, args `t` and
exactly one report, of type `JUnit`, with the single path `**/*.xml`. -/
theorem convertGradleFileTaskToStep_spec (lib : Lib) (task : Task)
    (gradleTask : HudsonGradleTask) (t : GoString) (ht : gradleTask.Tasks = t)
    (hparse : lib.unmarshalGradle (ascii "<builders>" ++ task.Content ++ ascii "</builders>")
      = some gradleTask) :
    ∃ (step : Step) (spec : Buildspec),
      convertGradleFileTaskToStep lib task = some step ∧
      step.Spec = some (.buildspec spec) ∧
      spec.Language = ascii "Java" ∧
      spec.BuildTool = ascii "Gradle" ∧
      spec.Args = t ∧
      spec.Reports = [{ Type_ := ascii "JUnit", Spec := some { Paths := [ascii "**/*.xml"] } }] := by
  refine ⟨⟨[], ascii "Gradle", ascii "RunTests", [], some (.buildspec
      ⟨ascii "Java", ascii "Gradle", t, false, [], [],
        [⟨ascii "JUnit", some ⟨[ascii "**/*.xml"]⟩⟩], false⟩)⟩,
    ⟨ascii "Java", ascii "Gradle", t, false, [], [],
      [⟨ascii "JUnit", some ⟨[ascii "**/*.xml"]⟩⟩], false⟩, ?_, rfl, rfl, rfl, rfl, rfl⟩
  simp only [convertGradleFileTaskToStep, hparse, ht]

/-- C8 witness: the tasks string `clean build test`. -/
theorem convertGradleFileTaskToStep_spec_witness :
    ∃ (step : Step) (spec : Buildspec),
      convertGradleFileTaskToStep exampleLib exampleGradleTask = some step ∧
      step.Spec = some (.buildspec spec) ∧
      spec.Language = ascii "Java" ∧
      spec.BuildTool = ascii "Gradle" ∧
      spec.Args = ascii "clean build test" ∧
      spec.Reports = [{ Type_ := ascii "JUnit", Spec := some { Paths := [ascii "**/*.xml"] } }] :=
  convertGradleFileTaskToStep_spec exampleLib exampleGradleTask { Tasks := ascii "clean build test" }
    (ascii "clean build test") rfl (by decide)

/-- C9: when the string `m` is the `timeoutMinutes` that `xml.Unmarshal` reads
from the trimmed content of a build-timeout task, `convertTimeoutTaskToStep`
returns a step of type `script` whose timeout is `m` followed by the letter m. -/
theorem convertTimeoutTaskToStep_timeout (lib : Lib) (task : Task)
    (timeoutTask : HudsonTimeoutTask) (m : GoString) (hm : timeoutTask.TimeoutMinutes = m)
    (hparse : lib.unmarshalTimeout (lib.TrimSpace task.Content) = some timeoutTask) :
    ∃ step : Step,
      convertTimeoutTaskToStep lib task = some step ∧
      step.Type_ = ascii "script" ∧
      step.Timeout = m ++ ascii "m" := by
  refine ⟨⟨[], ascii "Run0", ascii "script", m ++ ascii "m", some (.exec {})⟩, ?_, rfl, rfl⟩
  simp only [convertTimeoutTaskToStep, hparse, hm]

/-- C9 witness: `timeoutMinutes` 10 gives the timeout `10m`. -/
theorem convertTimeoutTaskToStep_timeout_witness :
    ascii "10" ++ ascii "m" = ascii "10m" ∧
    ∃ step : Step,
      convertTimeoutTaskToStep exampleLib exampleTimeoutTask = some step ∧
      step.Type_ = ascii "script" ∧
      step.Timeout = ascii "10" ++ ascii "m" :=
  ⟨by decide,
   convertTimeoutTaskToStep_timeout exampleLib exampleTimeoutTask { TimeoutMinutes := ascii "10" } (ascii "10")
    rfl (by decide)⟩

/-- C10: for every parsed project, `convert` marshals a config with version 1
and kind `pipeline` that has exactly one stage, of type `ci`, whose steps are
the steps built from the tasks, one per task and in the order of the tasks
(for an empty task list the stage has no step). -/
theorem convertConfig_shape (lib : Lib) (ctx : Context) :
    convert lib ctx = lib.yamlMarshal (convertConfig lib ctx) ∧
    (convertConfig lib ctx).Version = 1 ∧
    (convertConfig lib ctx).Kind = ascii "pipeline" ∧
    ∃ stage : Stage,
      (convertConfig lib ctx).Spec.Stages = [stage] ∧
      stage.Type_ = ascii "ci" ∧
      stage.Spec.Steps.length = ctx.config.Builders.Tasks.length ∧
      (∀ i : Nat, stage.Spec.Steps[i]?
        = (ctx.config.Builders.Tasks[i]?).map (taskToStep lib)) ∧
      stage.Spec.Steps = ctx.config.Builders.Tasks.map (taskToStep lib) := by
  refine ⟨rfl, rfl, rfl, _, convertConfig_steps lib ctx, rfl, ?_, ?_, rfl⟩
  · simp
  · intro i; simp [List.getElem?_map]

/-! ## The step builders: what they parse and what they return -/

theorem convertShellTaskToStep_eq (lib : Lib) (task : Task) :
    convertShellTaskToStep lib task
      = (lib.unmarshalShell (ascii "<builders>" ++ task.Content ++ ascii "</builders>")).map
          (fun shellTask => { Name := ascii "shell", Type_ := ascii "script",
                              Spec := some (.exec { Run := shellTask.Command }) }) := by
  unfold convertShellTaskToStep
  cases lib.unmarshalShell (ascii "<builders>" ++ task.Content ++ ascii "</builders>") <;> rfl

theorem convertAntTaskToStep_eq (lib : Lib) (task : Task) :
    convertAntTaskToStep lib task
      = (lib.unmarshalAnt (ascii "<builders>" ++ task.Content ++ ascii "</builders>")).map
          (fun antTask => { Name := ascii "ant", Type_ := ascii "plugin",
                            Spec := some (.plugin { Image := ascii "harnesscommunitytest/ant-plugin",
                                                    Inputs := [(ascii "goals", antTask.Targets)] }) }) := by
  unfold convertAntTaskToStep
  cases lib.unmarshalAnt (ascii "<builders>" ++ task.Content ++ ascii "</builders>") <;> rfl

theorem convertBatchFileTaskToStep_eq (lib : Lib) (task : Task) :
    convertBatchFileTaskToStep lib task
      = (lib.unmarshalBatch (ascii "<builders>" ++ task.Content ++ ascii "</builders>")).map
          (fun batchTask => { Name := ascii "shell", Type_ := ascii "script",
                              Spec := some (.exec { Run := batchTask.Command }) }) := by
  unfold convertBatchFileTaskToStep
  cases lib.unmarshalBatch (ascii "<builders>" ++ task.Content ++ ascii "</builders>") <;> rfl

theorem convertGradleFileTaskToStep_eq (lib : Lib) (task : Task) :
    convertGradleFileTaskToStep lib task
      = (lib.unmarshalGradle (ascii "<builders>" ++ task.Content ++ ascii "</builders>")).map
          (fun gradleTask => { Name := ascii "Gradle", Type_ := ascii "RunTests",
                               Spec := some (.buildspec
                                 { Language := ascii "Java", BuildTool := ascii "Gradle",
                                   Args := gradleTask.Tasks,
                                   Reports := [{ Type_ := ascii "JUnit",
                                                 Spec := some { Paths := [ascii "**/*.xml"] } }] }) }) := by
  unfold convertGradleFileTaskToStep
  cases lib.unmarshalGradle (ascii "<builders>" ++ task.Content ++ ascii "</builders>") <;> rfl

theorem convertMavenTaskToStep_eq (lib : Lib) (task : Task) :
    convertMavenTaskToStep lib task
      = (lib.unmarshalMaven (ascii "<builders>" ++ task.Content ++ ascii "</builders>")).map
          (fun mavenTask => { Name := ascii "maven", Type_ := ascii "plugin",
                              Spec := some (.plugin { Image := ascii "harnesscommunitytest/maven-plugin",
                                                      Inputs := [(ascii "goals", mavenTask.Targets)] }) }) := by
  unfold convertMavenTaskToStep
  cases lib.unmarshalMaven (ascii "<builders>" ++ task.Content ++ ascii "</builders>") <;> rfl

theorem convertTimeoutTaskToStep_eq (lib : Lib) (task : Task) :
    convertTimeoutTaskToStep lib task
      = (lib.unmarshalTimeout (lib.TrimSpace task.Content)).map
          (fun timeoutTask => { Name := ascii "Run0", Type_ := ascii "script",
                                Timeout := timeoutTask.TimeoutMinutes ++ ascii "m",
                                Spec := some (.exec {}) }) := by
  simp only [convertTimeoutTaskToStep]
  cases lib.unmarshalTimeout (lib.TrimSpace task.Content) <;> rfl

theorem taskToStep_some {lib : Lib} {task : Task} {step : Step}
    (h : taskToStep lib task = some step) :
    step.Id = [] ∧
    (step.Type_ = ascii "script" ∨ step.Type_ = ascii "plugin" ∨ step.Type_ = ascii "RunTests") := by
  unfold taskToStep at h
  simp only at h
  split_ifs at h
  · rw [convertShellTaskToStep_eq, Option.map_eq_some'] at h
    obtain ⟨_, _, rfl⟩ := h
    exact ⟨rfl, Or.inl rfl⟩
  · rw [convertAntTaskToStep_eq, Option.map_eq_some'] at h
    obtain ⟨_, _, rfl⟩ := h
    exact ⟨rfl, Or.inr (Or.inl rfl)⟩
  · rw [convertBatchFileTaskToStep_eq, Option.map_eq_some'] at h
    obtain ⟨_, _, rfl⟩ := h
    exact ⟨rfl, Or.inl rfl⟩
  · rw [convertGradleFileTaskToStep_eq, Option.map_eq_some'] at h
    obtain ⟨_, _, rfl⟩ := h
    exact ⟨rfl, Or.inr (Or.inr rfl)⟩
  · rw [convertMavenTaskToStep_eq, Option.map_eq_some'] at h
    obtain ⟨_, _, rfl⟩ := h
    exact ⟨rfl, Or.inr (Or.inl rfl)⟩
  · rw [convertTimeoutTaskToStep_eq, Option.map_eq_some'] at h
    obtain ⟨_, _, rfl⟩ := h
    exact ⟨rfl, Or.inl rfl⟩
  · obtain rfl := Option.some.inj h
    exact ⟨rfl, Or.inl rfl⟩

theorem convertConfig_steps_eq (lib : Lib) (ctx : Context) :
    (convertConfig lib ctx).steps = ctx.config.Builders.Tasks.filterMap (taskToStep lib) := by
  unfold Config.steps
  rw [convertConfig_steps]
  simp only [List.flatMap_singleton, List.filterMap_map]
  rfl

theorem convertConfig_step_mem {lib : Lib} {ctx : Context} {step : Step}
    (h : step ∈ (convertConfig lib ctx).steps) :
    ∃ task ∈ ctx.config.Builders.Tasks, taskToStep lib task = some step := by
  rw [convertConfig_steps_eq] at h
  exact List.mem_filterMap.mp h

theorem convertConfig_step_id {lib : Lib} {ctx : Context} {step : Step}
    (h : step ∈ (convertConfig lib ctx).steps) : step.Id = [] := by
  obtain ⟨_, _, htask⟩ := convertConfig_step_mem h
  exact (taskToStep_some htask).1

/-- C11 (as amended): the Jenkins XML converter assigns no ids: the ids of the
steps of the pipeline built by `convert` are all the empty string, so they are
pairwise distinct exactly when the pipeline has at most one step. -/
theorem convertConfig_step_ids (lib : Lib) (ctx : Context) :
    (convertConfig lib ctx).steps.map Step.Id
      = List.replicate (convertConfig lib ctx).steps.length [] ∧
    (((convertConfig lib ctx).steps.map Step.Id).Nodup
      ↔ (convertConfig lib ctx).steps.length ≤ 1) := by
  have hrep : (convertConfig lib ctx).steps.map Step.Id
      = List.replicate (convertConfig lib ctx).steps.length [] := by
    rw [List.eq_replicate_iff]
    refine ⟨List.length_map _ _, ?_⟩
    intro id hid
    obtain ⟨step, hstep, rfl⟩ := List.mem_map.mp hid
    exact convertConfig_step_id hstep
  refine ⟨hrep, ?_⟩
  rw [hrep]
  exact List.nodup_replicate

/-- C11 (as stated) fails: the project with a shell task and a task of unknown
kind is converted to two steps that both have the empty id. -/
theorem convertConfig_ids_counterexample :
    (convertConfig exampleLib exampleContext).steps.map Step.Id = [[], []] ∧
    ¬ ((convertConfig exampleLib exampleContext).steps.map Step.Id).Nodup := by
  decide

/-- C12 (as amended): every step placed in the pipeline by `convert` has a
non-empty type, one of `script`, `plugin` and `RunTests`, and the empty id. -/
theorem convertConfig_step_id_type (lib : Lib) (ctx : Context) (step : Step)
    (h : step ∈ (convertConfig lib ctx).steps) :
    step.Id = [] ∧ step.Type_ ≠ [] ∧
    (step.Type_ = ascii "script" ∨ step.Type_ = ascii "plugin" ∨ step.Type_ = ascii "RunTests") := by
  obtain ⟨_, _, htask⟩ := convertConfig_step_mem h
  obtain ⟨hid, htype⟩ := taskToStep_some htask
  refine ⟨hid, ?_, htype⟩
  rcases htype with h | h | h <;> rw [h] <;> decide

/-- C12 witness: the shell step of the example project. -/
theorem convertConfig_step_id_type_witness :
    ({ Name := ascii "shell", Type_ := ascii "script",
       Spec := some (.exec { Run := ascii "echo hi" }) } : Step)
      ∈ (convertConfig exampleLib exampleContext).steps ∧
    ({ Name := ascii "shell", Type_ := ascii "script",
       Spec := some (.exec { Run := ascii "echo hi" }) } : Step).Id = [] ∧
    ({ Name := ascii "shell", Type_ := ascii "script",
       Spec := some (.exec { Run := ascii "echo hi" }) } : Step).Type_ ≠ [] ∧
    (({ Name := ascii "shell", Type_ := ascii "script",
        Spec := some (.exec { Run := ascii "echo hi" }) } : Step).Type_ = ascii "script" ∨
     ({ Name := ascii "shell", Type_ := ascii "script",
        Spec := some (.exec { Run := ascii "echo hi" }) } : Step).Type_ = ascii "plugin" ∨
     ({ Name := ascii "shell", Type_ := ascii "script",
        Spec := some (.exec { Run := ascii "echo hi" }) } : Step).Type_ = ascii "RunTests") :=
  ⟨by decide, convertConfig_step_id_type exampleLib exampleContext _ (by decide)⟩

/-- C12 (as stated) fails: the step built from the shell task `echo hi` is in
the pipeline and its id is empty. -/
theorem convertConfig_step_id_counterexample :
    ∃ step ∈ (convertConfig exampleLib exampleContext).steps,
      step.Name = ascii "shell" ∧ ¬ (step.Id ≠ [] ∧ step.Type_ ≠ []) := by
  decide

/-- C13 (as amended): for a task of a recognised kind, the builder chosen by
`convert` returns an actual step exactly when `xml.Unmarshal` accepts the text
the builder hands to it; when the content fails to parse the builder returns
nil instead of a step. -/
theorem taskToStep_isSome_iff (lib : Lib) (task : Task)
    (hk : task.XMLName.Local ∈ recognisedKinds) :
    ((taskToStep lib task).isSome = true ↔
      (task.XMLName.Local = ascii "hudson.tasks.Shell" ∧
        (lib.unmarshalShell
          (ascii "<builders>" ++ task.Content ++ ascii "</builders>")).isSome = true) ∨
      (task.XMLName.Local = ascii "hudson.tasks.Ant" ∧
        (lib.unmarshalAnt
          (ascii "<builders>" ++ task.Content ++ ascii "</builders>")).isSome = true) ∨
      (task.XMLName.Local = ascii "hudson.tasks.BatchFile" ∧
        (lib.unmarshalBatch
          (ascii "<builders>" ++ task.Content ++ ascii "</builders>")).isSome = true) ∨
      (task.XMLName.Local = ascii "hudson.plugins.gradle.Gradle" ∧
        (lib.unmarshalGradle
          (ascii "<builders>" ++ task.Content ++ ascii "</builders>")).isSome = true) ∨
      (task.XMLName.Local = ascii "hudson.tasks.Maven" ∧
        (lib.unmarshalMaven
          (ascii "<builders>" ++ task.Content ++ ascii "</builders>")).isSome = true) ∨
      (task.XMLName.Local = ascii "hudson.plugins.build__timeout.BuildStepWithTimeout" ∧
        (lib.unmarshalTimeout (lib.TrimSpace task.Content)).isSome = true)) := by
  simp only [recognisedKinds, List.mem_cons, List.mem_singleton, List.not_mem_nil, or_false] at hk
  rcases hk with hk | hk | hk | hk | hk | hk
  · simp +decide [taskToStep, hk, convertShellTaskToStep_eq]
  · simp +decide [taskToStep, hk, convertAntTaskToStep_eq]
  · simp +decide [taskToStep, hk, convertBatchFileTaskToStep_eq]
  · simp +decide [taskToStep, hk, convertGradleFileTaskToStep_eq]
  · simp +decide [taskToStep, hk, convertMavenTaskToStep_eq]
  · simp +decide [taskToStep, hk, convertTimeoutTaskToStep_eq]

/-- C13 witness: the well-formed shell task `echo hi`. -/
theorem taskToStep_isSome_iff_witness :
    exampleShellTask.XMLName.Local ∈ recognisedKinds ∧
    ((taskToStep exampleLib exampleShellTask).isSome = true ↔
      (exampleShellTask.XMLName.Local = ascii "hudson.tasks.Shell" ∧
        (exampleLib.unmarshalShell
          (ascii "<builders>" ++ exampleShellTask.Content ++ ascii "</builders>")).isSome = true) ∨
      (exampleShellTask.XMLName.Local = ascii "hudson.tasks.Ant" ∧
        (exampleLib.unmarshalAnt
          (ascii "<builders>" ++ exampleShellTask.Content ++ ascii "</builders>")).isSome = true) ∨
      (exampleShellTask.XMLName.Local = ascii "hudson.tasks.BatchFile" ∧
        (exampleLib.unmarshalBatch
          (ascii "<builders>" ++ exampleShellTask.Content ++ ascii "</builders>")).isSome = true) ∨
      (exampleShellTask.XMLName.Local = ascii "hudson.plugins.gradle.Gradle" ∧
        (exampleLib.unmarshalGradle
          (ascii "<builders>" ++ exampleShellTask.Content ++ ascii "</builders>")).isSome = true) ∨
      (exampleShellTask.XMLName.Local = ascii "hudson.tasks.Maven" ∧
        (exampleLib.unmarshalMaven
          (ascii "<builders>" ++ exampleShellTask.Content ++ ascii "</builders>")).isSome = true) ∨
      (exampleShellTask.XMLName.Local
          = ascii "hudson.plugins.build__timeout.BuildStepWithTimeout" ∧
        (exampleLib.unmarshalTimeout
          (exampleLib.TrimSpace exampleShellTask.Content)).isSome = true)) :=
  ⟨by decide, taskToStep_isSome_iff exampleLib exampleShellTask (by decide)⟩

/-- C13 (as stated) fails: the shell task whose content `<command>echo hi` is
not well-formed is of a recognised kind, and its builder returns nil, which
`convert` places in the step list. -/
theorem taskToStep_nil_counterexample :
    exampleBrokenShellTask.XMLName.Local ∈ recognisedKinds ∧
    exampleLib.unmarshalShell
      (ascii "<builders>" ++ exampleBrokenShellTask.Content ++ ascii "</builders>") = none ∧
    taskToStep exampleLib exampleBrokenShellTask = none ∧
    (convertConfig exampleLib
      { config := { Builders := { Tasks := [exampleBrokenShellTask] } } }).Spec.Stages.map
        (fun stage => stage.Spec.Steps) = [[none]] := by
  decide

/-- C17 (as amended): the shell, Ant, batch-file, Gradle and Maven builders hand
`<builders>` ++ content ++ `</builders>` to the XML parser, and their result is
determined by what the parser returns for that text; the timeout builder hands
`strings.TrimSpace(task.Content)` to the parser, without an envelope. -/
theorem builders_parser_input (lib : Lib) (task : Task) :
    convertShellTaskToStep lib task
      = (lib.unmarshalShell (ascii "<builders>" ++ task.Content ++ ascii "</builders>")).map
          (fun shellTask => { Name := ascii "shell", Type_ := ascii "script",
                              Spec := some (.exec { Run := shellTask.Command }) }) ∧
    convertAntTaskToStep lib task
      = (lib.unmarshalAnt (ascii "<builders>" ++ task.Content ++ ascii "</builders>")).map
          (fun antTask => { Name := ascii "ant", Type_ := ascii "plugin",
                            Spec := some (.plugin { Image := ascii "harnesscommunitytest/ant-plugin",
                                                    Inputs := [(ascii "goals", antTask.Targets)] }) }) ∧
    convertBatchFileTaskToStep lib task
      = (lib.unmarshalBatch (ascii "<builders>" ++ task.Content ++ ascii "</builders>")).map
          (fun batchTask => { Name := ascii "shell", Type_ := ascii "script",
                              Spec := some (.exec { Run := batchTask.Command }) }) ∧
    convertGradleFileTaskToStep lib task
      = (lib.unmarshalGradle (ascii "<builders>" ++ task.Content ++ ascii "</builders>")).map
          (fun gradleTask => { Name := ascii "Gradle", Type_ := ascii "RunTests",
                               Spec := some (.buildspec
                                 { Language := ascii "Java", BuildTool := ascii "Gradle",
                                   Args := gradleTask.Tasks,
                                   Reports := [{ Type_ := ascii "JUnit",
                                                 Spec := some { Paths := [ascii "**/*.xml"] } }] }) }) ∧
    convertMavenTaskToStep lib task
      = (lib.unmarshalMaven (ascii "<builders>" ++ task.Content ++ ascii "</builders>")).map
          (fun mavenTask => { Name := ascii "maven", Type_ := ascii "plugin",
                              Spec := some (.plugin { Image := ascii "harnesscommunitytest/maven-plugin",
                                                      Inputs := [(ascii "goals", mavenTask.Targets)] }) }) ∧
    convertTimeoutTaskToStep lib task
      = (lib.unmarshalTimeout (lib.TrimSpace task.Content)).map
          (fun timeoutTask => { Name := ascii "Run0", Type_ := ascii "script",
                                Timeout := timeoutTask.TimeoutMinutes ++ ascii "m",
                                Spec := some (.exec {}) }) :=
  ⟨convertShellTaskToStep_eq lib task, convertAntTaskToStep_eq lib task,
   convertBatchFileTaskToStep_eq lib task, convertGradleFileTaskToStep_eq lib task,
   convertMavenTaskToStep_eq lib task, convertTimeoutTaskToStep_eq lib task⟩

/-- C17 (as stated) fails for the timeout builder: the text it parses is the
trimmed content, not the content in a `<builders>` envelope.  On the example
task the step gets the timeout `10m`; had the enveloped text been parsed,
`timeoutMinutes` would not be a child of the root and the timeout would be `m`. -/
theorem timeout_envelope_counterexample :
    exampleLib.TrimSpace exampleTimeoutTask.Content
      = ascii "<strategy><timeoutMinutes>10</timeoutMinutes></strategy>" ∧
    exampleLib.TrimSpace exampleTimeoutTask.Content
      ≠ ascii "<builders>" ++ exampleTimeoutTask.Content ++ ascii "</builders>" ∧
    convertTimeoutTaskToStep exampleLib exampleTimeoutTask
      = some { Name := ascii "Run0", Type_ := ascii "script", Timeout := ascii "10m",
               Spec := some (.exec {}) } ∧
    (exampleLib.unmarshalTimeout
        (ascii "<builders>" ++ exampleTimeoutTask.Content ++ ascii "</builders>")).map
      (fun timeoutTask => timeoutTask.TimeoutMinutes ++ ascii "m") = some (ascii "m") := by
  decide

/-! ## `InheritKeys` -/

/-- C14: unmarshalling a YAML boolean scalar into `InheritKeys` succeeds and
yields `InheritKeys{All: true}` with no keys, whatever the boolean; for the
`false` of `TestInheritKeys` in particular. -/
theorem InheritKeys_unmarshal_boolean :
    (∀ b : Bool, InheritKeys.UnmarshalYAML (.boolean b) = .ok { All := true, Keys := [] }) ∧
    InheritKeys.UnmarshalYAML (.boolean false) = .ok { All := true } :=
  ⟨fun _ => rfl, rfl⟩

/-- C15: unmarshalling into `InheritKeys` a YAML value that is neither a boolean
nor a list of strings fails with the error `failed to unmarshal inherit keys`. -/
theorem InheritKeys_unmarshal_error (v : YamlValue)
    (hb : ∀ b, v ≠ .boolean b) (hs : ∀ keys, v ≠ .strings keys) :
    InheritKeys.UnmarshalYAML v = .error (ascii "failed to unmarshal inherit keys") := by
  cases v with
  | boolean b => exact absurd rfl (hb b)
  | strings keys => exact absurd rfl (hs keys)
  | mapping keys => rfl
  | scalar text => rfl

/-- C15 witness: the empty mapping `{}` of `TestInheritKeys_Error`. -/
theorem InheritKeys_unmarshal_error_witness :
    InheritKeys.UnmarshalYAML (.mapping [])
      = .error (ascii "failed to unmarshal inherit keys") :=
  InheritKeys_unmarshal_error (.mapping []) (fun _ h => by cases h) (fun _ h => by cases h)

/-! ## The JaCoCo mapping rules -/

/-- C16: `SetJacocoTool` returns the value `jacoco` and no error for every node,
attribute map and key, and the rules of `JacocoJenkinsToDroneParamMapperList`
with destination key `tool` are exactly one rule, whose setter it is. -/
theorem SetJacocoTool_fixed :
    (∀ (node : Option Node) (attrMap : List (GoString × GoValue)) (jenkinsKey : GoString),
      SetJacocoTool node attrMap jenkinsKey = (GoValue.str (ascii "jacoco"), none)) ∧
    (JacocoJenkinsToDroneParamMapperList.filter (fun rule => rule.destKey = ascii "tool")).map
      (fun rule => rule.customSetter) = [some SetJacocoTool] ∧
    (JacocoJenkinsToDroneParamMapperList.filter (fun rule => rule.customSetter.isSome)).map
      (fun rule => rule.destKey) = [ascii "tool"] := by
  refine ⟨fun _ _ _ => rfl, ?_, ?_⟩
  · rfl
  · decide

/-! ## The placeholder of `SanitizeForId` -/

theorem replaceInvalidRunsAux_underscores :
    ∀ (s : GoString) (inRun : Bool),
      (∀ b ∈ s, isLetter b = false ∧ isDigit b = false) →
      ∀ b ∈ replaceInvalidRunsAux isWordByte inRun s, b = 95 := by
  intro s
  induction s with
  | nil => intro inRun _ b hb; simp [replaceInvalidRunsAux] at hb
  | cons a rest ih =>
    intro inRun hs b hb
    have ha := hs a (List.mem_cons_self _ _)
    have hrest : ∀ b ∈ rest, isLetter b = false ∧ isDigit b = false :=
      fun b hb => hs b (List.mem_cons_of_mem _ hb)
    unfold replaceInvalidRunsAux at hb
    by_cases hk : isWordByte a = true
    · rw [if_pos hk] at hb
      rcases List.mem_cons.mp hb with h | h
      · have h95 : a = 95 := by
          simpa [isWordByte, ha.1, ha.2] using hk
        rw [h, h95]
      · exact ih false hrest b h
    · rw [if_neg hk] at hb
      cases inRun with
      | true => exact ih true hrest b (by simpa using hb)
      | false =>
        rcases List.mem_cons.mp (by simpa using hb) with h | h
        · exact h
        · exact ih true hrest b h

theorem sanitizedIdName_of_no_alnum (spanName : GoString)
    (hname : ∀ b ∈ spanName, isLetter b = false ∧ isDigit b = false) :
    sanitizedIdName spanName = ascii "unamed" := by
  have hall : ∀ b ∈ replaceInvalidRuns isWordByte spanName, b = 95 :=
    replaceInvalidRunsAux_underscores spanName false hname
  have hdrop : List.dropWhile (fun b => b == 95) (replaceInvalidRuns isWordByte spanName) = [] := by
    rw [List.dropWhile_eq_nil_iff]
    intro b hb
    simp [hall b hb]
  have htrim : trimUnderscores (replaceInvalidRuns isWordByte spanName) = [] := by
    unfold trimUnderscores
    rw [hdrop]
    exact List.rdropWhile_nil _
  simp only [sanitizedIdName, htrim]
  decide

/-- C18: for a span name without any ASCII letter or digit (the empty name
included) and a span id of at least six bytes, `SanitizeForId` returns
`unamed` followed by the first six bytes of the span id. -/
theorem SanitizeForId_placeholder (spanName spanId : GoString)
    (hname : ∀ b ∈ spanName, isLetter b = false ∧ isDigit b = false)
    (hid : 6 ≤ spanId.length) :
    SanitizeForId spanName spanId = some (ascii "unamed" ++ spanId.take 6) := by
  rw [SanitizeForId_eq spanName hid, sanitizedIdName_of_no_alnum spanName hname]

/-- C18 witness: a name of punctuation only, and the empty name. -/
theorem SanitizeForId_placeholder_witness :
    SanitizeForId (ascii "__ (?) --") (ascii "c1ca8f00") = some (ascii "unamedc1ca8f") ∧
    SanitizeForId [] (ascii "c1ca8f00") = some (ascii "unamed" ++ (ascii "c1ca8f00").take 6) ∧
    SanitizeForId (ascii "__ (?) --") (ascii "c1ca8f00")
      = some (ascii "unamed" ++ (ascii "c1ca8f00").take 6) :=
  ⟨by decide,
   SanitizeForId_placeholder [] (ascii "c1ca8f00") (by decide) (by decide),
   SanitizeForId_placeholder (ascii "__ (?) --") (ascii "c1ca8f00") (by decide) (by decide)⟩

/-! ## Trimming and separators in `SanitizeForName` -/

theorem replaceInvalidRunsAux_length_le (keep : Nat → Bool) :
    ∀ (s : GoString) (inRun : Bool), (replaceInvalidRunsAux keep inRun s).length ≤ s.length := by
  intro s
  induction s with
  | nil => intro inRun; simp [replaceInvalidRunsAux]
  | cons a rest ih =>
    intro inRun
    unfold replaceInvalidRunsAux
    split
    · simpa using ih false
    · split
      · exact Nat.le_succ_of_le (ih true)
      · simpa using ih true

theorem collapseSeparators_length_le : ∀ s : GoString, (collapseSeparators s).length ≤ s.length
  | [] => by simp [collapseSeparators]
  | [_] => by simp [collapseSeparators]
  | b :: c :: rest => by
    have ih := collapseSeparators_length_le (c :: rest)
    rw [collapseSeparators]
    split
    · exact Nat.le_succ_of_le ih
    · simpa using ih

theorem truncate_head (n : Nat) (hn : 1 ≤ n) (s : GoString) :
    (if s.length > n then s.take n else s).head? = s.head? := by
  split
  · rw [List.head?_take, if_neg (by omega)]
  · rfl

theorem truncate_of_length_le {n : Nat} {s : GoString} (h : s.length ≤ n) :
    (if s.length > n then s.take n else s) = s := by
  rw [if_neg (by omega)]

theorem trimmedName_length_le (spanName : GoString) :
    (trimRight (trimLeft (collapseSeparators (replaceInvalidRuns isNameByte spanName)))).length
      ≤ spanName.length := by
  have h1 := (List.rdropWhile_prefix isTrimByte
    (trimLeft (collapseSeparators (replaceInvalidRuns isNameByte spanName)))).length_le
  have h2 := (List.dropWhile_suffix isTrimByte
    (l := collapseSeparators (replaceInvalidRuns isNameByte spanName))).length_le
  have h3 := collapseSeparators_length_le (replaceInvalidRuns isNameByte spanName)
  have h4 := replaceInvalidRunsAux_length_le isNameByte spanName false
  unfold trimRight trimLeft
  unfold trimLeft at h1
  unfold replaceInvalidRuns at *
  omega

theorem trimmedName_head (s : GoString) (b : Nat)
    (h : (trimRight (trimLeft s)).head? = some b) : isTrimByte b = false := by
  obtain ⟨r, hr⟩ : trimRight (trimLeft s) <+: trimLeft s := List.rdropWhile_prefix isTrimByte _
  have hdrop := List.head?_dropWhile_not isTrimByte s
  cases ht : trimRight (trimLeft s) with
  | nil => rw [ht] at h; simp at h
  | cons a t =>
    rw [ht] at h hr
    have hab : a = b := by simpa using h
    have hhead : (List.dropWhile isTrimByte s).head? = some a := by
      have : trimLeft s = a :: (t ++ r) := by rw [← hr]; rfl
      unfold trimLeft at this
      rw [this]; rfl
    rw [hhead] at hdrop
    rw [← hab]
    exact hdrop

theorem trimmedName_last (s : GoString) (b : Nat)
    (h : (trimRight (trimLeft s)).getLast? = some b) : isTrimByte b = false := by
  have hne : List.rdropWhile isTrimByte (trimLeft s) ≠ [] := by
    intro hnil
    unfold trimRight at h
    rw [hnil] at h
    simp at h
  have hlast := List.rdropWhile_last_not isTrimByte (trimLeft s) hne
  unfold trimRight at h
  rw [List.getLast?_eq_getLast _ hne] at h
  rw [← Option.some.inj h]
  simpa using hlast

/-- C19 (as amended): the result of `SanitizeForName` never begins with an
underscore or a space, and for an input of at most 128 bytes, which is not cut,
it does not end with one either; `harness.DefaultName` is taken to begin and
end with neither, and for the second part to have at most 128 bytes. -/
theorem SanitizeForName_trimmed (DefaultName spanName : GoString)
    (hDhead : ∀ b, DefaultName.head? = some b → isTrimByte b = false)
    (hDlast : ∀ b, DefaultName.getLast? = some b → isTrimByte b = false) :
    (∀ b, (SanitizeForName DefaultName spanName).head? = some b → isTrimByte b = false) ∧
    (spanName.length ≤ 128 → DefaultName.length ≤ 128 →
      ∀ b, (SanitizeForName DefaultName spanName).getLast? = some b → isTrimByte b = false) := by
  have hpick : ∀ x : GoString,
      x = (if trimRight (trimLeft (collapseSeparators (replaceInvalidRuns isNameByte spanName))) = []
        then DefaultName
        else trimRight (trimLeft (collapseSeparators (replaceInvalidRuns isNameByte spanName)))) →
      (∀ b, x.head? = some b → isTrimByte b = false) ∧
      (∀ b, x.getLast? = some b → isTrimByte b = false) ∧
      (spanName.length ≤ 128 → DefaultName.length ≤ 128 → x.length ≤ 128) := by
    intro x hx
    split at hx
    · rw [hx]; exact ⟨hDhead, hDlast, fun _ h => h⟩
    · rw [hx]
      exact ⟨trimmedName_head _, trimmedName_last _,
        fun h _ => le_trans (trimmedName_length_le spanName) h⟩
  obtain ⟨hhead, hlast, hlen⟩ := hpick _ rfl
  constructor
  · intro b hb
    exact hhead b ((truncate_head 128 (by decide) _).symm.trans hb)
  · intro hs hD b hb
    exact hlast b ((congrArg List.getLast? (truncate_of_length_le (hlen hs hD))).symm.trans hb)

/-- C19 witness: a name with underscores and spaces at both ends. -/
theorem SanitizeForName_trimmed_witness :
    SanitizeForName (ascii "default") (ascii "_ Build & Test _ ") = ascii "Build Test" ∧
    (∀ b, (SanitizeForName (ascii "default") (ascii "_ Build & Test _ ")).head? = some b →
      isTrimByte b = false) ∧
    ((ascii "_ Build & Test _ ").length ≤ 128 → (ascii "default").length ≤ 128 →
      ∀ b, (SanitizeForName (ascii "default") (ascii "_ Build & Test _ ")).getLast? = some b →
        isTrimByte b = false) :=
  ⟨by decide,
   SanitizeForName_trimmed (ascii "default") (ascii "_ Build & Test _ ") (by decide) (by decide)⟩

set_option maxRecDepth 100000 in
/-- C19 (as stated) fails: the name of 127 letters `a` followed by `_b` is cut
after its 128th byte, the underscore, whatever `harness.DefaultName` is. -/
theorem SanitizeForName_trailing_counterexample :
    exampleLongName.length = 129 ∧
    ∀ DefaultName : GoString,
      (SanitizeForName DefaultName exampleLongName).length = 128 ∧
      (SanitizeForName DefaultName exampleLongName).getLast? = some 95 ∧
      isTrimByte 95 = true := by
  refine ⟨by decide, fun DefaultName => ?_⟩
  have htrim : trimRight (trimLeft (collapseSeparators
      (replaceInvalidRuns isNameByte exampleLongName))) = exampleLongName := by decide
  have hne : ¬ exampleLongName = [] := by decide
  have hlen : exampleLongName.length > 128 := by decide
  have hval : SanitizeForName DefaultName exampleLongName = exampleLongName.take 128 := by
    simp only [SanitizeForName, htrim, if_neg hne, if_pos hlen]
  rw [hval]
  decide

theorem collapseSeparators_cons_of_not_separator {c : Nat} (hc : isSeparator c = false)
    (rest : GoString) : collapseSeparators (c :: rest) = c :: collapseSeparators rest := by
  cases rest with
  | nil => simp [collapseSeparators]
  | cons d r => rw [collapseSeparators]; simp [hc]

theorem collapseSeparators_chain :
    ∀ s : GoString, List.Chain' (fun a b => notBothSeparators a b = true) (collapseSeparators s)
  | [] => by simp [collapseSeparators]
  | [_] => by simp [collapseSeparators]
  | b :: c :: rest => by
    have ih := collapseSeparators_chain (c :: rest)
    rw [collapseSeparators]
    split
    · exact ih
    · next hcond =>
      refine List.Chain'.cons' ih ?_
      intro y hy
      cases hb : isSeparator b with
      | false => simp [notBothSeparators, hb]
      | true =>
        have hc : isSeparator c = false := by
          cases hc : isSeparator c with
          | false => rfl
          | true => simp [hb, hc] at hcond
        rw [collapseSeparators_cons_of_not_separator hc] at hy
        have hyc : c = y := by simpa using hy
        rw [← hyc]
        simp [notBothSeparators, hc]

theorem collapseSeparators_append_of_last_not_separator :
    ∀ (pre tail : GoString), (∀ b, pre.getLast? = some b → isSeparator b = false) →
      collapseSeparators (pre ++ tail) = collapseSeparators pre ++ collapseSeparators tail
  | [], tail, _ => by simp [collapseSeparators]
  | [a], tail, h => by
    have ha : isSeparator a = false := h a rfl
    rw [List.singleton_append, collapseSeparators_cons_of_not_separator ha]
    simp [collapseSeparators]
  | a :: c :: pre, tail, h => by
    have ih := collapseSeparators_append_of_last_not_separator (c :: pre) tail
      (fun b hb => h b (by rw [List.getLast?_cons_cons]; exact hb))
    rw [List.cons_append, List.cons_append, collapseSeparators, collapseSeparators,
      ← List.cons_append, ih]
    split <;> rfl

theorem collapseSeparators_run :
    ∀ (run : GoString) (hrun : run ≠ []) (post : GoString),
      (∀ b ∈ run, isSeparator b = true) →
      (∀ b, post.head? = some b → isSeparator b = false) →
      collapseSeparators (run ++ post) = run.getLast hrun :: collapseSeparators post
  | [], hrun, _, _, _ => absurd rfl hrun
  | [b], _, post, _, hpost => by
    cases post with
    | nil => simp [collapseSeparators]
    | cons c r =>
      have hc : isSeparator c = false := hpost c rfl
      rw [List.singleton_append, collapseSeparators]
      simp [hc]
  | b :: c :: run, _, post, hsep, hpost => by
    have ih := collapseSeparators_run (c :: run) (List.cons_ne_nil _ _) post
      (fun x hx => hsep x (List.mem_cons_of_mem _ hx)) hpost
    have hb : isSeparator b = true := hsep b (List.mem_cons_self _ _)
    have hc : isSeparator c = true := hsep c (List.mem_cons_of_mem _ (List.mem_cons_self _ _))
    rw [List.cons_append, List.cons_append, collapseSeparators, ← List.cons_append, ih]
    simp [hb, hc]

theorem hasAdjacentSeparators_eq_false_iff :
    ∀ s : GoString, hasAdjacentSeparators s = false
      ↔ List.Chain' (fun a b => notBothSeparators a b = true) s
  | [] => by simp [hasAdjacentSeparators]
  | [_] => by simp [hasAdjacentSeparators]
  | a :: b :: rest => by
    have ih := hasAdjacentSeparators_eq_false_iff (b :: rest)
    rw [hasAdjacentSeparators, List.chain'_cons, ← ih]
    simp only [notBothSeparators]
    cases isSeparator a <;> cases isSeparator b <;> simp

theorem truncate_chain {R : Nat → Nat → Prop} (n : Nat) {s : GoString} (h : List.Chain' R s) :
    List.Chain' R (if s.length > n then s.take n else s) := by
  split
  · exact h.take n
  · exact h

theorem orElse_chain {R : Nat → Nat → Prop} {d s : GoString} (hd : List.Chain' R d)
    (hs : List.Chain' R s) : List.Chain' R (if s = [] then d else s) := by
  split
  · exact hd
  · exact hs

/-- C20: the result of `SanitizeForName` contains no two adjacent separators
(underscore, space, hyphen), `harness.DefaultName` being taken to contain none;
and the replacement of repeating separators turns a maximal run of separators
into the last byte of the run, leaving what stands before and after to be
treated on its own. -/
theorem SanitizeForName_separators (DefaultName spanName pre run post : GoString)
    (hD : hasAdjacentSeparators DefaultName = false)
    (hrun : run ≠ [])
    (hsep : ∀ b ∈ run, isSeparator b = true)
    (hpre : ∀ b, pre.getLast? = some b → isSeparator b = false)
    (hpost : ∀ b, post.head? = some b → isSeparator b = false) :
    hasAdjacentSeparators (SanitizeForName DefaultName spanName) = false ∧
    collapseSeparators (pre ++ run ++ post)
      = collapseSeparators pre ++ [run.getLast hrun] ++ collapseSeparators post := by
  constructor
  · have hbase : List.Chain' (fun a b => notBothSeparators a b = true)
        (trimRight (trimLeft (collapseSeparators (replaceInvalidRuns isNameByte spanName)))) :=
      List.Chain'.prefix
        (List.Chain'.suffix (collapseSeparators_chain _) (List.dropWhile_suffix isTrimByte))
        (List.rdropWhile_prefix isTrimByte _)
    rw [hasAdjacentSeparators_eq_false_iff]
    exact truncate_chain 128
      (orElse_chain ((hasAdjacentSeparators_eq_false_iff DefaultName).mp hD) hbase)
  · rw [List.append_assoc, collapseSeparators_append_of_last_not_separator pre _ hpre,
      collapseSeparators_run run hrun post hsep hpost]
    simp

/-- C20 witness: in `a_ -b  c` the run `_ -` becomes a hyphen and the two
spaces become one. -/
theorem SanitizeForName_separators_witness :
    SanitizeForName (ascii "default") (ascii "a_ -b  c") = ascii "a-b c" ∧
    hasAdjacentSeparators (SanitizeForName (ascii "default") (ascii "a_ -b  c")) = false ∧
    collapseSeparators (ascii "a" ++ ascii "_ -" ++ ascii "b  c")
      = collapseSeparators (ascii "a") ++ [(ascii "_ -").getLast (by decide)]
        ++ collapseSeparators (ascii "b  c") :=
  ⟨by decide,
   SanitizeForName_separators (ascii "default") (ascii "a_ -b  c") (ascii "a") (ascii "_ -")
     (ascii "b  c") (by decide) (by decide) (by decide) (by decide) (by decide)⟩

/-! ## The `Run` field of the timeout step -/

/-- C21 fails on the code: whatever `timeoutMinutes` is parsed, the `StepExec`
of the step returned by `convertTimeoutTaskToStep` has an empty `Run`; the
timeout value is carried by the field `Timeout` of the step only.  For the
example task with 10 minutes, `Run` is empty and `Timeout` is `10m`. -/
theorem convertTimeoutTaskToStep_run_empty :
    (∀ (lib : Lib) (task : Task),
      (convertTimeoutTaskToStep lib task).map (fun step => step.Spec)
        = (lib.unmarshalTimeout (lib.TrimSpace task.Content)).map
            (fun _ => some (StepSpec.exec { Run := [] }))) ∧
    exampleLib.unmarshalTimeout (exampleLib.TrimSpace exampleTimeoutTask.Content)
      = some { TimeoutMinutes := ascii "10" } ∧
    convertTimeoutTaskToStep exampleLib exampleTimeoutTask
      = some { Name := ascii "Run0", Type_ := ascii "script", Timeout := ascii "10m",
               Spec := some (.exec { Run := [] }) } := by
  refine ⟨fun lib task => ?_, by decide, by decide⟩
  rw [convertTimeoutTaskToStep_eq]
  cases lib.unmarshalTimeout (lib.TrimSpace task.Content) <;> rfl

/-! ## Totality of `SanitizeForId` -/

/-- C22: `SanitizeForId` returns an id exactly when the span id has at least six
bytes, and fails (the slice `spanId[:6]` is out of range) exactly when it has
fewer, whatever the span name. -/
theorem SanitizeForId_total_iff (spanName spanId : GoString) :
    ((∃ id, SanitizeForId spanName spanId = some id) ↔ 6 ≤ spanId.length) ∧
    (SanitizeForId spanName spanId = none ↔ spanId.length < 6) := by
  by_cases h : spanId.length < 6
  · have hnone : SanitizeForId spanName spanId = none := by
      simp only [SanitizeForId]
      rw [if_pos h]
    rw [hnone]
    constructor
    · constructor
      · rintro ⟨_, hid⟩; cases hid
      · intro h6; omega
    · exact ⟨fun _ => h, fun _ => rfl⟩
  · have h6 : 6 ≤ spanId.length := by omega
    rw [SanitizeForId_eq spanName h6]
    constructor
    · exact ⟨fun _ => h6, fun _ => ⟨_, rfl⟩⟩
    · constructor
      · intro hid; cases hid
      · intro hlt; omega

/-! ## Unrecognised orbs -/

/-- C25: for a name outside the ten recognised orb names, `orbs.Convert` returns
nil, whatever the command, the version, the step and the converters of the
orb packages. -/
theorem orbs_Convert_unrecognised {Custom Step : Type} (pkg : orbs.Converters Custom Step)
    (name command version : GoString) (step : Option Custom)
    (hname : name ∉ orbs.recognisedOrbs) :
    orbs.Convert pkg name command version step = none := by
  simp only [orbs.recognisedOrbs, List.mem_cons, List.mem_singleton, List.not_mem_nil, or_false,
    not_or] at hname
  obtain ⟨h1, h2, h3, h4, h5, h6, h7, h8, h9, h10⟩ := hname
  simp only [orbs.Convert]
  rw [if_neg h1, if_neg h2, if_neg h3, if_neg h4, if_neg h5, if_neg h6, if_neg h7, if_neg h8,
    if_neg h9, if_neg h10]

/-- C25 witness: the orb `circleci/python` is not recognised, while
`circleci/go` is dispatched to its converter. -/
theorem orbs_Convert_unrecognised_witness :
    orbs.Convert orbs.exampleConverters (ascii "circleci/go") (ascii "test") [] none
      = some (ascii "go") ∧
    ascii "circleci/python" ∉ orbs.recognisedOrbs ∧
    orbs.Convert orbs.exampleConverters (ascii "circleci/python") (ascii "install-packages")
      (ascii "2.1.1") (some ()) = none :=
  ⟨by decide, by decide,
   orbs_Convert_unrecognised orbs.exampleConverters (ascii "circleci/python")
     (ascii "install-packages") (ascii "2.1.1") (some ()) (by decide)⟩

/-! ## Distinct keys of the JaCoCo rules -/

theorem lookup_eq_some_iff_mem :
    ∀ (entries : List (GoString × GoValue)), (entries.map Prod.fst).Nodup →
      ∀ (key : GoString) (value : GoValue),
        entries.lookup key = some value ↔ (key, value) ∈ entries := by
  intro entries
  induction entries with
  | nil => intro _ key value; simp
  | cons entry rest ih =>
    intro hnodup key value
    obtain ⟨k, v⟩ := entry
    rw [List.map_cons, List.nodup_cons] at hnodup
    obtain ⟨hk, hrest⟩ := hnodup
    rw [List.lookup_cons, List.mem_cons]
    by_cases hkey : key = k
    · subst hkey
      have hnot : (key, value) ∉ rest := fun hmem =>
        hk (List.mem_map.mpr ⟨(key, value), hmem, rfl⟩)
      simp only [beq_self_eq_true, Option.some.injEq, Prod.mk.injEq, true_and]
      constructor
      · intro h; exact Or.inl h.symm
      · rintro (h | h)
        · exact h.symm
        · exact absurd h hnot
    · have hbeq : (key == k) = false := by simpa using hkey
      simp only [hbeq, Prod.mk.injEq, hkey, false_and, false_or]
      exact ih hrest key value

theorem lookup_eq_of_perm {l₁ l₂ : List (GoString × GoValue)} (hperm : l₁.Perm l₂)
    (hnodup : (l₂.map Prod.fst).Nodup) (key : GoString) : l₁.lookup key = l₂.lookup key := by
  have hnodup₁ : (l₁.map Prod.fst).Nodup := ((hperm.map Prod.fst).nodup_iff).mpr hnodup
  apply Option.ext
  intro value
  rw [Option.mem_def, Option.mem_def, lookup_eq_some_iff_mem l₁ hnodup₁,
    lookup_eq_some_iff_mem l₂ hnodup]
  exact hperm.mem_iff

theorem applyRule_key {coerce : ParamType → GoValue → Option GoValue} {node : Option Node}
    {attrMap : List (GoString × GoValue)} {rule : JenkinsToDroneParamMapper}
    {entry : GoString × GoValue} (h : applyRule coerce node attrMap rule = some entry) :
    entry.1 = rule.destKey := by
  unfold applyRule at h
  cases hset : rule.customSetter with
  | some setter =>
    rw [hset] at h
    rw [← Option.some.inj h]
  | none =>
    rw [hset] at h
    cases hlook : attrMap.lookup rule.sourceKey with
    | none => rw [hlook] at h; cases h
    | some value =>
      rw [hlook] at h
      simp only [Option.map_eq_some'] at h
      obtain ⟨_, _, rfl⟩ := h
      rfl

theorem applyRules_keys_sublist (coerce : ParamType → GoValue → Option GoValue)
    (node : Option Node) (attrMap : List (GoString × GoValue)) :
    ∀ rules : List JenkinsToDroneParamMapper,
      List.Sublist ((applyRules coerce node attrMap rules).map Prod.fst)
        (rules.map (fun rule => rule.destKey)) := by
  intro rules
  induction rules with
  | nil => exact List.Sublist.slnil
  | cons rule rest ih =>
    unfold applyRules at ih ⊢
    cases hrule : applyRule coerce node attrMap rule with
    | none =>
      rw [List.filterMap_cons_none hrule]
      exact List.Sublist.cons _ ih
    | some entry =>
      rw [List.filterMap_cons_some hrule, List.map_cons, List.map_cons, applyRule_key hrule]
      exact List.Sublist.cons₂ _ ih

theorem Jacoco_sourceKeys_nodup :
    (JacocoJenkinsToDroneParamMapperList.map (fun rule => rule.sourceKey)).Nodup := by
  decide

theorem Jacoco_destKeys_nodup :
    (JacocoJenkinsToDroneParamMapperList.map (fun rule => rule.destKey)).Nodup := by
  decide

/-- C24: in `JacocoJenkinsToDroneParamMapperList` the source keys are pairwise
distinct and the destination keys are pairwise distinct; hence, for the mapping
engine of the specification, the value found under each destination key is the
same for every reordering of the rules. -/
theorem Jacoco_keys_distinct (coerce : ParamType → GoValue → Option GoValue)
    (node : Option Node) (attrMap : List (GoString × GoValue))
    (rules : List JenkinsToDroneParamMapper)
    (hperm : rules.Perm JacocoJenkinsToDroneParamMapperList) :
    (JacocoJenkinsToDroneParamMapperList.map (fun rule => rule.sourceKey)).Nodup ∧
    (JacocoJenkinsToDroneParamMapperList.map (fun rule => rule.destKey)).Nodup ∧
    ∀ key : GoString,
      (applyRules coerce node attrMap rules).lookup key
        = (applyRules coerce node attrMap JacocoJenkinsToDroneParamMapperList).lookup key := by
  refine ⟨Jacoco_sourceKeys_nodup, Jacoco_destKeys_nodup, fun key => ?_⟩
  have hsub := applyRules_keys_sublist coerce node attrMap JacocoJenkinsToDroneParamMapperList
  exact lookup_eq_of_perm (hperm.filterMap _) (Jacoco_destKeys_nodup.sublist hsub) key

/-- C24 witness: the rules in reverse order populate the same fields; with the
example attribute bag, `tool` is `jacoco` and `class_directories` is set. -/
theorem Jacoco_keys_distinct_witness :
    (applyRules exampleCoerce none exampleAttrMap JacocoJenkinsToDroneParamMapperList).map Prod.fst
      = [ascii "fail_on_threshold", ascii "class_directories", ascii "threshold_line",
         ascii "tool"] ∧
    (applyRules exampleCoerce none exampleAttrMap
        JacocoJenkinsToDroneParamMapperList.reverse).lookup (ascii "tool")
      = some (.str (ascii "jacoco")) ∧
    (JacocoJenkinsToDroneParamMapperList.map (fun rule => rule.sourceKey)).Nodup ∧
    (JacocoJenkinsToDroneParamMapperList.map (fun rule => rule.destKey)).Nodup ∧
    ∀ key : GoString,
      (applyRules exampleCoerce none exampleAttrMap
          JacocoJenkinsToDroneParamMapperList.reverse).lookup key
        = (applyRules exampleCoerce none exampleAttrMap
            JacocoJenkinsToDroneParamMapperList).lookup key :=
  ⟨by decide, by decide,
   Jacoco_keys_distinct exampleCoerce none exampleAttrMap
     JacocoJenkinsToDroneParamMapperList.reverse (List.reverse_perm _)⟩

/-! ## Idempotence of `SanitizeForName` -/

theorem replaceInvalidRunsAux_of_all (keep : Nat → Bool) :
    ∀ (s : GoString) (inRun : Bool), (∀ b ∈ s, keep b = true) →
      replaceInvalidRunsAux keep inRun s = s := by
  intro s
  induction s with
  | nil => intro inRun _; rfl
  | cons a rest ih =>
    intro inRun hall
    have ha : keep a = true := hall a (List.mem_cons_self _ _)
    unfold replaceInvalidRunsAux
    rw [if_pos ha, ih false (fun b hb => hall b (List.mem_cons_of_mem _ hb))]

theorem collapseSeparators_of_no_adjacent :
    ∀ s : GoString, hasAdjacentSeparators s = false → collapseSeparators s = s
  | [], _ => rfl
  | [_], _ => rfl
  | a :: b :: rest, h => by
    rw [hasAdjacentSeparators, Bool.or_eq_false_iff] at h
    rw [collapseSeparators, if_neg (by rw [h.1]; decide),
      collapseSeparators_of_no_adjacent (b :: rest) h.2]

theorem trimLeft_of_head {s : GoString} (h : ∀ b, s.head? = some b → isTrimByte b = false) :
    trimLeft s = s := by
  cases s with
  | nil => rfl
  | cons a rest =>
    have ha : isTrimByte a = false := h a rfl
    unfold trimLeft
    rw [List.dropWhile_cons_of_neg (by rw [ha]; decide)]

theorem trimRight_of_last {s : GoString} (h : ∀ b, s.getLast? = some b → isTrimByte b = false) :
    trimRight s = s := by
  unfold trimRight
  rw [List.rdropWhile_eq_self_iff]
  intro hne
  rw [h _ (List.getLast?_eq_getLast s hne)]
  decide

theorem trimmedName_no_adjacent (spanName : GoString) :
    hasAdjacentSeparators
      (trimRight (trimLeft (collapseSeparators (replaceInvalidRuns isNameByte spanName))))
      = false := by
  rw [hasAdjacentSeparators_eq_false_iff]
  exact List.Chain'.prefix
    (List.Chain'.suffix (collapseSeparators_chain _) (List.dropWhile_suffix isTrimByte))
    (List.rdropWhile_prefix isTrimByte _)

theorem SanitizeForName_of_clean (DefaultName t : GoString) (hne : t ≠ [])
    (hbytes : ∀ b ∈ t, isNameByte b = true)
    (hadj : hasAdjacentSeparators t = false)
    (hhead : ∀ b, t.head? = some b → isTrimByte b = false)
    (hlast : ∀ b, t.getLast? = some b → isTrimByte b = false)
    (hlen : t.length ≤ 128) :
    SanitizeForName DefaultName t = t := by
  have h1 : replaceInvalidRuns isNameByte t = t := replaceInvalidRunsAux_of_all isNameByte t false hbytes
  simp only [SanitizeForName, h1, collapseSeparators_of_no_adjacent t hadj, trimLeft_of_head hhead,
    trimRight_of_last hlast, if_neg hne]
  exact truncate_of_length_le hlen

/-- C23: when `harness.DefaultName` is a fixed point of `SanitizeForName`, the
function is idempotent on every input of at most 128 bytes. -/
theorem SanitizeForName_idempotent (DefaultName spanName : GoString)
    (hD : SanitizeForName DefaultName DefaultName = DefaultName)
    (hs : spanName.length ≤ 128) :
    SanitizeForName DefaultName (SanitizeForName DefaultName spanName)
      = SanitizeForName DefaultName spanName := by
  have hDlen : DefaultName.length ≤ 128 := by
    have h := truncate_length_le 128
      (if trimRight (trimLeft (collapseSeparators (replaceInvalidRuns isNameByte DefaultName))) = []
        then DefaultName
        else trimRight (trimLeft (collapseSeparators (replaceInvalidRuns isNameByte DefaultName))))
    have heq : (SanitizeForName DefaultName DefaultName).length ≤ 128 := h
    rw [hD] at heq
    exact heq
  by_cases ht : trimRight (trimLeft (collapseSeparators
      (replaceInvalidRuns isNameByte spanName))) = []
  · have hval : SanitizeForName DefaultName spanName = DefaultName := by
      simp only [SanitizeForName, ht, if_true]
      exact truncate_of_length_le hDlen
    rw [hval, hD]
  · have hlen := le_trans (trimmedName_length_le spanName) hs
    have hval : SanitizeForName DefaultName spanName
        = trimRight (trimLeft (collapseSeparators (replaceInvalidRuns isNameByte spanName))) := by
      simp only [SanitizeForName, if_neg ht]
      exact truncate_of_length_le hlen
    rw [hval]
    exact SanitizeForName_of_clean DefaultName _ ht (trimmedName_mem spanName)
      (trimmedName_no_adjacent spanName) (trimmedName_head _) (trimmedName_last _) hlen

/-- C23 witness: the placeholder `default` is a fixed point, and sanitizing
`_ Build & Test _ ` twice gives `Build Test` as sanitizing it once does. -/
theorem SanitizeForName_idempotent_witness :
    SanitizeForName (ascii "default") (ascii "default") = ascii "default" ∧
    (ascii "_ Build & Test _ ").length ≤ 128 ∧
    SanitizeForName (ascii "default") (ascii "_ Build & Test _ ") = ascii "Build Test" ∧
    SanitizeForName (ascii "default")
        (SanitizeForName (ascii "default") (ascii "_ Build & Test _ "))
      = SanitizeForName (ascii "default") (ascii "_ Build & Test _ ") :=
  ⟨by decide, by decide, by decide,
   SanitizeForName_idempotent (ascii "default") (ascii "_ Build & Test _ ")
     (by decide) (by decide)⟩

end GoDrone
